import Mathlib

/-!
# Icecream daemon: `work_it` (daemon/workit.cpp)

A shallow embedding of `daemon/workit.cpp` and theorems about it.

* The two allocator heuristics are pure functions.  `ggc_min_expand_heuristic`
  computes in `double`; doubles are embedded as the rationals they denote and every
  arithmetic operation is followed by the binary64 rounding `fl`.
* `work_it` talks to the operating system.  Every system call result is read from a
  script (`Env`), and every externally visible action is appended to a trace of
  `Event`s.  A run on a script that is too short for the calls the code makes is `none`.
* Text (`std::string`, `char*`) is embedded as `String`: the C string that `c_str()`,
  `strdup` and `append(const char*)` see.
* Machine integers are `Nat`/`Int` with explicit wrap-around where the code computes in
  a fixed width (`unsigned int` is 32 bits, `long`/`unsigned long` 64 bits).
-/

namespace Icecream

/-! ## Doubles -/

/-- Round a rational to the nearest integer, ties to the even one. -/
def roundHalfEven (q : ℚ) : ℤ :=
  let f := ⌊q⌋
  let r := q - f
  if r < 1/2 then f else if 1/2 < r then f + 1 else if f % 2 = 0 then f else f + 1

/-- Rounding of a real result to binary64 (53 bit significand, round to nearest even,
gradual underflow; magnitudes stay far below the overflow threshold here). -/
def fl (q : ℚ) : ℚ :=
  if q = 0 then 0 else
    let e := max (Int.log 2 |q| - 52) (-1074)
    (roundHalfEven (q / 2 ^ e) : ℚ) * 2 ^ e

/-- The conversion `int( x )` of a double: truncation toward zero. -/
def double_to_int (x : ℚ) : ℤ := if 0 ≤ x then ⌊x⌋ else ⌈x⌉

/-- `std::min (a, b)` on doubles: `b < a ? b : a`. -/
def std_min_double (a b : ℚ) : ℚ := if b < a then b else a

/-- `std::max (a, b)` on `unsigned int`: `a < b ? b : a`. -/
def std_max (a b : ℕ) : ℕ := if a < b then b else a

/-- `std::min (a, b)` on `unsigned int`: `b < a ? b : a`. -/
def std_min (a b : ℕ) : ℕ := if b < a then b else a

/-! ## Resource-limit heuristics (workit.cpp 65-92) -/

/-- Heuristic to set a default for GGC_MIN_EXPAND (workit.cpp 66-79).
`mem_limit` is the `unsigned int` argument. -/
def ggc_min_expand_heuristic (mem_limit : ℕ) : ℤ :=
  let min_expand : ℚ := fl (mem_limit : ℚ)
  let min_expand := fl (min_expand / 1024)
  let min_expand := fl (min_expand * 70)
  let min_expand := std_min_double min_expand 70
  let min_expand := fl (min_expand + 30)
  double_to_int min_expand

/-- Heuristic to set a default for GGC_MIN_HEAPSIZE (workit.cpp 82-92).
`mem_limit` is the `unsigned int` argument; the product is taken in `unsigned int`. -/
def ggc_min_heapsize_heuristic (mem_limit : ℕ) : ℕ :=
  let mem_limit := mem_limit / 8
  let mem_limit := std_max mem_limit 4
  let mem_limit := std_min mem_limit 128
  (mem_limit * 1024) % 2 ^ 32

/-! ## Machine integers -/

/-- Wrap an integer into the range of `long` (64 bit two's complement). -/
def to_long (x : ℤ) : ℤ := (x + 2 ^ 63) % 2 ^ 64 - 2 ^ 63

/-- Conversion of an integer to `unsigned long` (64 bit). -/
def to_ulong (x : ℤ) : ℕ := (x % 2 ^ 64).toNat

/-- Conversion of an `unsigned int` value to `int`, as `%d` reads its argument. -/
def to_int (x : ℕ) : ℤ :=
  if x % 2 ^ 32 < 2 ^ 31 then ((x % 2 ^ 32 : ℕ) : ℤ) else ((x % 2 ^ 32 : ℕ) : ℤ) - 2 ^ 32

/-- The text `printf` produces for `%d`. -/
def fmt_d (v : ℤ) : String := v.repr

/-! ## Declarations from headers outside this file -/

/-- Exit codes of exitcode.h that `work_it` uses.  The header is not among the sources, so
the values are parameters of the model. -/
structure ExitCodes where
  EXIT_DISTCC_FAILED : ℤ
  EXIT_COMPILER_CRASHED : ℤ
  EXIT_OUT_OF_MEMORY : ℤ
  EXIT_IO_ERROR : ℤ
  EXIT_COMPILER_MISSING : ℤ
  EXIT_CLIENT_KILLED : ℤ

/-- Modelled from the spec: `CompileJob::Language` of job.h, which is not among the
sources.  The spec's data model gives the source language as "C or C++". -/
inductive Language
  | Lang_C
  | Lang_CXX
  deriving DecidableEq, Repr

/-- Modelled from the spec: `CompileJob` of job.h, which is not among the sources: "source
language (C or C++), an ordered sequence of remote compiler flags, an ordered sequence of
additional flags". -/
structure CompileJob where
  language : Language
  remoteFlags : List String
  restFlags : List String

/-- Modelled from the spec: `appendList` is declared outside this file; the spec has "every
remote flag and every rest flag in their given order". -/
def appendList (list : List String) (to_append : List String) : List String :=
  list ++ to_append

/-- Modelled from the spec: the messages of comm.h that `get_msg` can deliver: "a file-chunk
message (carrying a byte buffer, its uncompressed length, and its compressed length) or an
end-of-stream message", or a message of any other type.  `buffer` lists the bytes at
`fcmsg->buffer`; a chunk that the channel delivers has at least `len` of them. -/
inductive Msg
  | M_FILE_CHUNK (buffer : List ℕ) (len : ℕ) (compressed : ℕ)
  | M_END
  | other (type : ℕ)
  deriving DecidableEq, Repr

/-- `WIFEXITED` of sys/wait.h (Linux encoding): the low seven bits are clear. -/
def WIFEXITED (status : ℤ) : Bool := status % 128 = 0

/-- `WEXITSTATUS` of sys/wait.h (Linux encoding): bits 8 to 15. -/
def WEXITSTATUS (status : ℤ) : ℤ := (status / 256) % 256

/-! ## Events and scripted system calls -/

/-- The descriptors `work_it` handles. -/
inductive Fd
  | sock_err0 | sock_err1
  | sock_out0 | sock_out1
  | sock_in0 | sock_in1
  | main_sock0 | main_sock1
  | client_fd
  | STDIN_FILENO | STDOUT_FILENO | STDERR_FILENO
  deriving DecidableEq, Repr

/-- Externally visible actions of `work_it`, in program order. -/
inductive Event
  | close (fd : Fd)
  | unlink (path : String)
  | get_msg (result : Option Msg)
  | write (fd : Fd) (bytes : List ℕ)
  | read (fd : Fd)
  | waitpid
  | select
  | wait4 (wuntraced : Bool)
  | kill_SIGTERM
  | dup2 (oldfd newfd : Fd)
  | setenv (name value : String)
  | setrlimit (rlim_cur rlim_max : ℕ)
  | execv (path : String) (argv : List String)
  deriving DecidableEq, Repr

/-- Scripted behaviour of one `write( sock_in[1], buf, count )`: the socket takes up to
`space` bytes, or the call fails, with `errno == EINTR` or with another error. -/
inductive WriteRes
  | takes (space : ℕ)
  | fails (eintr : Bool)
  deriving DecidableEq, Repr

/-- The return value of the scripted `write` when `count` bytes are requested: the number
of bytes taken, at most `count`, or -1. -/
def WriteRes.bytes (w : WriteRes) (count : ℕ) : ℤ :=
  match w with
  | WriteRes.takes space => ((min space count : ℕ) : ℤ)
  | WriteRes.fails _ => -1

/-- Whether `errno == EINTR` holds after the scripted `write` has failed. -/
def WriteRes.errno_EINTR (w : WriteRes) : Bool :=
  match w with
  | WriteRes.takes _ => false
  | WriteRes.fails eintr => eintr

/-- Result of one `read(main_sock[0], &resultByte, 1)`. -/
structure ReadRes where
  n : ℤ
  eintr : Bool
  resultByte : ℤ
  deriving DecidableEq, Repr

/-- Result of one `waitpid(pid, 0, 0)`. -/
structure WaitpidRes where
  ret : ℤ
  eintr : Bool
  deriving DecidableEq, Repr

/-- Everything the system answers during one iteration of the completion loop: the
`select` result and ready sets, what the two reads would deliver (return value and the
text then in `buffer`), the value of `must_reap` when `wait4` is called, and what `wait4`
would deliver. -/
structure SelectStep where
  ret : ℤ
  eintr : Bool
  isset_out : Bool
  isset_err : Bool
  isset_client : Bool
  read_out : ℤ × String
  read_err : ℤ × String
  must_reap : Bool
  wait4_ret : ℤ
  wait4_status : ℤ
  ru_minflt : ℤ
  ru_majflt : ℤ
  deriving DecidableEq, Repr

/-- The scripted environment of one call of `work_it`. -/
structure Env where
  dcc_make_tmpnam : ℤ
  tmp_output : String
  pipe_sock_err : ℤ
  pipe_sock_out : ℤ
  pipe_main_sock : ℤ
  fcntl_out0_nonblock : ℤ
  fcntl_err0_nonblock : ℤ
  fcntl_out0_cloexec : ℤ
  fcntl_err0_cloexec : ℤ
  fcntl_out1_cloexec : ℤ
  fcntl_err1_cloexec : ℤ
  socketpair : ℤ
  fork : ℤ
  getuid : ℕ
  getgid : ℕ
  execv_fails : Bool
  getpagesize : ℤ
  msgs : List (Option Msg)
  writes : List WriteRes
  main_reads : List ReadRes
  waitpids : List WaitpidRes
  selects : List SelectStep

/-- The reference parameters of `work_it`. -/
structure Refs where
  in_compressed : ℕ
  in_uncompressed : ℕ
  str_out : String
  str_err : String
  status : ℤ
  outfilename : String
  deriving DecidableEq, Repr

/-- How a call of `work_it` ends: it returns `ret`; it throws `myexception (exitcode)`;
or, in the child process, the image is replaced by the compiler or the process exits. -/
inductive Outcome
  | returned (ret : ℤ)
  | thrown (exitcode : ℤ)
  | exec (argv : List String)
  | exited (code : ℤ)
  deriving DecidableEq, Repr

/-- A finished run. -/
structure Result where
  outcome : Outcome
  refs : Refs
  trace : List Event
  deriving DecidableEq, Repr

/-- A loop either goes on to the code after it or ends the function. -/
inductive Flow (α : Type)
  | next (a : α)
  | stop (o : Outcome)

/-! ## The child: argument vector (workit.cpp 208-234) -/

/-- The array `argv` while it is filled: `argc` as computed, the entries stored so far
(`argv[0]` to `argv[i-1]`) and the index `i`.  The array has `argc + 1` slots. -/
structure Argv where
  argc : ℤ
  argv : List String
  i : ℕ
  deriving DecidableEq, Repr

/-- The statement `argv[i++] = s`. -/
def Argv.put (a : Argv) (s : String) : Argv :=
  { a with argv := a.argv ++ [s], i := a.i + 1 }

/-- Lines 208-230: `argc` is computed, then `argv` is filled.  `mem_limit` is the
`unsigned long` parameter of `work_it`; both heuristics take `unsigned int`. -/
def build_argv (j : CompileJob) (list : List String) (tmp_output : String) (mem_limit : ℕ) :
    Argv :=
  let argc : ℤ := (list.length : ℤ)
  let argc := argc + 1
  let argc := argc + 5
  let argc := argc + 4
  let a : Argv := { argc := argc, argv := [], i := 0 }
  let a := a.put "usr/bin/gcc"
  let a := list.foldl Argv.put a
  let a := a.put "-x"
  let a := a.put (if j.language = Language.Lang_CXX then "c++" else "c")
  let a := a.put "-"
  let a := a.put "-o"
  let a := a.put tmp_output
  let a := a.put "--param"
  let a := a.put ("ggc-min-expand=" ++ fmt_d (ggc_min_expand_heuristic (mem_limit % 2 ^ 32)))
  let a := a.put "--param"
  let a := a.put ("ggc-min-heapsize=" ++
    fmt_d (to_int (ggc_min_heapsize_heuristic (mem_limit % 2 ^ 32))))
  a

/-- Line 233: the test `i > argc` that guards the "You can't count" message. -/
def cant_count (a : Argv) : Bool := decide ((a.i : ℤ) > a.argc)

/-- The child branch of `work_it` (lines 187-254). -/
def work_it_child (env : Env) (j : CompileJob) (list : List String) (mem_limit : ℕ) :
    List Event × Outcome :=
  let tr := [Event.close Fd.main_sock0, Event.close Fd.sock_in1,
    Event.dup2 Fd.sock_in0 Fd.STDIN_FILENO, Event.setenv "PATH" "usr/bin"]
  if env.getuid = 0 ∨ env.getgid = 0 then
    (tr, Outcome.exited 142)
  else
    let rlim := (mem_limit * 1024 * 1024) % 2 ^ 64
    let a := build_argv j list env.tmp_output mem_limit
    let tr := tr ++ [Event.setrlimit rlim rlim,
      Event.close Fd.STDOUT_FILENO, Event.close Fd.sock_out0,
      Event.dup2 Fd.sock_out1 Fd.STDOUT_FILENO,
      Event.close Fd.STDERR_FILENO, Event.close Fd.sock_err0,
      Event.dup2 Fd.sock_err1 Fd.STDERR_FILENO,
      Event.execv (a.argv.headD "") a.argv]
    if env.execv_fails then
      (tr ++ [Event.write Fd.main_sock1 [1]], Outcome.exited (-1))
    else
      (tr, Outcome.exec a.argv)

/-! ## The parent: input streaming (workit.cpp 259-303) -/

/-- The loop `while ( len )` of lines 283-298.  Each call of `write` takes the next scripted
behaviour; a positive return value `bytes` transfers the `bytes` bytes at `buffer + off`. -/
def write_loop (E : ExitCodes) (buffer : List ℕ) :
    ℤ → ℤ → List WriteRes → Option (List Event × Flow (List WriteRes))
  | len, _, [] => if len = 0 then some ([], Flow.next []) else none
  | len, off, w :: ws =>
    if len = 0 then some ([], Flow.next (w :: ws))
    else
      let bytes := w.bytes (to_ulong len)
      let ev := Event.write Fd.sock_in1
        (if 0 < bytes then (buffer.drop off.toNat).take bytes.toNat else [])
      if bytes < 0 ∧ w.errno_EINTR = true then
        match write_loop E buffer len off ws with
        | none => none
        | some (tr, f) => some (ev :: tr, f)
      else if bytes = -1 then
        some ([ev], Flow.stop (Outcome.thrown E.EXIT_COMPILER_CRASHED))
      else
        match write_loop E buffer (len - bytes) (off + bytes) ws with
        | none => none
        | some (tr, f) => some (ev :: tr, f)

/-- The loop `for (;;)` of lines 259-302: one iteration per scripted result of
`client->get_msg(60)`. -/
def input_loop (E : ExitCodes) :
    List (Option Msg) → List WriteRes → Refs → Option (List Event × Refs × Flow Unit)
  | [], _, _ => none
  | none :: _, _, r =>
    some ([Event.get_msg none], r, Flow.stop (Outcome.thrown E.EXIT_IO_ERROR))
  | some (Msg.other t) :: _, _, r =>
    some ([Event.get_msg (some (Msg.other t))], r, Flow.stop (Outcome.thrown E.EXIT_IO_ERROR))
  | some Msg.M_END :: _, _, r =>
    some ([Event.get_msg (some Msg.M_END)], r, Flow.next ())
  | some (Msg.M_FILE_CHUNK buffer len compressed) :: ms, ws, r =>
    let r := { r with in_uncompressed := (r.in_uncompressed + len) % 2 ^ 32 }
    let r := { r with in_compressed := (r.in_compressed + compressed) % 2 ^ 32 }
    let ev := Event.get_msg (some (Msg.M_FILE_CHUNK buffer len compressed))
    match write_loop E buffer (to_long len) 0 ws with
    | none => none
    | some (tr, Flow.stop o) => some (ev :: tr, r, Flow.stop o)
    | some (tr, Flow.next ws) =>
      match input_loop E ms ws r with
      | none => none
      | some (tr2, r, f) => some (ev :: (tr ++ tr2), r, f)

/-- Lines 259-303: the input loop followed by `close (sock_in[1])`. -/
def input_streamer (E : ExitCodes) (msgs : List (Option Msg)) (writes : List WriteRes)
    (r : Refs) : Option (List Event × Refs × Flow Unit) :=
  match input_loop E msgs writes r with
  | none => none
  | some (tr, r, Flow.stop o) => some (tr, r, Flow.stop o)
  | some (tr, r, Flow.next ()) => some (tr ++ [Event.close Fd.sock_in1], r, Flow.next ())

/-! ## The parent: launch confirmation (workit.cpp 307-337) -/

/-- The loop `while ( waitpid(pid, 0, 0) < 0 && errno == EINTR)` of line 325. -/
def waitpid_loop : List WaitpidRes → Option (List Event)
  | [] => none
  | w :: ws =>
    if w.ret < 0 ∧ w.eintr = true then
      match waitpid_loop ws with
      | none => none
      | some tr => some (Event.waitpid :: tr)
    else some [Event.waitpid]

/-- The loop of lines 307-336 and the `close( main_sock[0] )` after it. -/
def confirm_loop (E : ExitCodes) (tmp_output : String) (waitpids : List WaitpidRes) :
    List ReadRes → Refs → Option (List Event × Refs × Flow Unit)
  | [], _ => none
  | rd :: rds, r =>
    if rd.n = 1 then
      let r := { r with status := rd.resultByte }
      let tr := [Event.read Fd.main_sock0, Event.close Fd.main_sock0,
        Event.close Fd.sock_err0, Event.close Fd.sock_err1,
        Event.close Fd.sock_out0, Event.close Fd.sock_out1,
        Event.close Fd.sock_out0, Event.close Fd.sock_out1,
        Event.close Fd.sock_in0, Event.close Fd.sock_in1]
      match waitpid_loop waitpids with
      | none => none
      | some tr2 =>
        some (tr ++ tr2 ++ [Event.unlink tmp_output], r,
          Flow.stop (Outcome.returned E.EXIT_COMPILER_MISSING))
    else if rd.n = -1 ∧ rd.eintr = true then
      match confirm_loop E tmp_output waitpids rds r with
      | none => none
      | some (tr, r, f) => some (Event.read Fd.main_sock0 :: tr, r, f)
    else
      some ([Event.read Fd.main_sock0, Event.close Fd.main_sock0], r, Flow.next ())

/-! ## The parent: completion loop (workit.cpp 341-422) -/

/-- The marker that line 388 looks for in the captured standard error. -/
def OOM_MARKER : String := "virtual memory exhausted: Cannot allocate memory"

/-- Search for `needle` from the current position on; `pos` is that position. -/
def find_from (needle : List Char) : List Char → ℕ → Option ℕ
  | [], pos => if needle.isPrefixOf [] then some pos else none
  | c :: cs, pos =>
    if needle.isPrefixOf (c :: cs) then some pos else find_from needle cs (pos + 1)

/-- The call `s.find( needle )` of `std::string`: the first position at which `needle`
occurs, `none` for `string::npos`. -/
def string_find (s : String) (needle : String) : Option ℕ :=
  find_from needle.data s.data 0

/-- Line 386: `( ru.ru_minflt + ru.ru_majflt ) * getpagesize() / 1024`, computed in `long`
and stored in an `unsigned long`. -/
def mem_used (ru_minflt ru_majflt getpagesize : ℤ) : ℕ :=
  to_ulong (Int.tdiv (to_long (to_long (ru_minflt + ru_majflt) * getpagesize)) 1024)

/-- Lines 380-395, the code run once `wait4` has delivered: from the wait status, the
resource usage, the budget and the captured standard error to the new value of `status`
and the value `work_it` returns. -/
def finalize (E : ExitCodes) (status : ℤ) (ru_minflt ru_majflt getpagesize : ℤ)
    (mem_limit : ℕ) (str_err : String) : ℤ × ℤ :=
  let status := if WIFEXITED status then WEXITSTATUS status else 1
  if status ≠ 0 then
    let mem_used := mem_used ru_minflt ru_majflt getpagesize
    if (mem_used * 100) % 2 ^ 64 > (85 * mem_limit * 1024) % 2 ^ 64 ∨
        string_find str_err OOM_MARKER ≠ none then
      (status, E.EXIT_OUT_OF_MEMORY)
    else
      (status, 0)
  else
    (status, 0)

/-- The loop `for(;;)` of lines 341-422, one iteration per scripted `SelectStep`. -/
def event_loop (E : ExitCodes) (getpagesize : ℤ) (mem_limit : ℕ) :
    List SelectStep → Refs → Option (List Event × Refs × ℤ)
  | [], _ => none
  | s :: ss, r =>
    if s.ret = -1 ∧ s.eintr = false then
      some ([Event.select], r, E.EXIT_DISTCC_FAILED)
    else if s.ret = -1 ∨ s.ret = 0 then
      if s.wait4_ret ≠ 0 then
        let status := if 0 < s.wait4_ret then s.wait4_status else r.status
        let fin := finalize E status s.ru_minflt s.ru_majflt getpagesize mem_limit r.str_err
        some ([Event.select, Event.wait4 s.must_reap,
          Event.close Fd.sock_err0, Event.close Fd.sock_err1,
          Event.close Fd.sock_out0, Event.close Fd.sock_out1],
          { r with status := fin.1 }, fin.2)
      else
        match event_loop E getpagesize mem_limit ss r with
        | none => none
        | some (tr, r, ret) => some (Event.select :: Event.wait4 s.must_reap :: tr, r, ret)
    else
      let tr_out := if s.isset_out then [Event.read Fd.sock_out0] else []
      let r := if s.isset_out = true ∧ 0 < s.read_out.1 then
        { r with str_out := r.str_out ++ s.read_out.2 } else r
      let tr_err := if s.isset_err then [Event.read Fd.sock_err0] else []
      let r := if s.isset_err = true ∧ 0 < s.read_err.1 then
        { r with str_err := r.str_err ++ s.read_err.2 } else r
      if s.isset_client then
        some (Event.select :: (tr_out ++ tr_err ++ [Event.close Fd.client_fd, Event.kill_SIGTERM]),
          { r with str_err := r.str_err ++ "client cancelled\n" }, E.EXIT_CLIENT_KILLED)
      else
        match event_loop E getpagesize mem_limit ss r with
        | none => none
        | some (tr, r, ret) => some (Event.select :: (tr_out ++ tr_err ++ tr), r, ret)

/-! ## `work_it` (workit.cpp 102-426) -/

/-- The parent branch of `work_it` (lines 256-422). -/
def work_it_parent (E : ExitCodes) (env : Env) (r : Refs) (mem_limit : ℕ) : Option Result :=
  let tr0 := [Event.close Fd.main_sock1, Event.close Fd.sock_in0]
  match input_streamer E env.msgs env.writes r with
  | none => none
  | some (tr1, r, Flow.stop o) => some { outcome := o, refs := r, trace := tr0 ++ tr1 }
  | some (tr1, r, Flow.next ()) =>
    match confirm_loop E env.tmp_output env.waitpids env.main_reads r with
    | none => none
    | some (tr2, r, Flow.stop o) =>
      some { outcome := o, refs := r, trace := tr0 ++ tr1 ++ tr2 }
    | some (tr2, r, Flow.next ()) =>
      match event_loop E env.getpagesize mem_limit env.selects r with
      | none => none
      | some (tr3, r, ret) =>
        some { outcome := Outcome.returned ret, refs := r, trace := tr0 ++ tr1 ++ tr2 ++ tr3 }

/-- The function `work_it`.  `E` are the exit codes, `env` the scripted system, `r` the
values of the reference parameters at entry; `mem_limit` is an `unsigned long`.  Signal
dispositions and socket buffer sizes (lines 149-170) have no effect on the model: the
value of `must_reap` that the handler leaves is part of each `SelectStep`. -/
def work_it (E : ExitCodes) (env : Env) (j : CompileJob) (r : Refs) (mem_limit : ℕ) :
    Option Result :=
  let r := { r with str_out := "" }
  let list := appendList j.remoteFlags j.restFlags
  let fail (ret : ℤ) (r : Refs) : Option Result :=
    some { outcome := Outcome.returned ret, refs := r, trace := [] }
  if env.dcc_make_tmpnam ≠ 0 then fail env.dcc_make_tmpnam r
  else
    let r := { r with outfilename := env.tmp_output }
    if env.pipe_sock_err ≠ 0 then fail E.EXIT_DISTCC_FAILED r
    else if env.pipe_sock_out ≠ 0 then fail E.EXIT_DISTCC_FAILED r
    else if env.pipe_main_sock ≠ 0 then fail E.EXIT_DISTCC_FAILED r
    else if env.fcntl_out0_nonblock ≠ 0 then fail E.EXIT_DISTCC_FAILED r
    else if env.fcntl_err0_nonblock ≠ 0 then fail E.EXIT_DISTCC_FAILED r
    else if env.fcntl_out0_cloexec ≠ 0 then fail E.EXIT_DISTCC_FAILED r
    else if env.fcntl_err0_cloexec ≠ 0 then fail E.EXIT_DISTCC_FAILED r
    else if env.fcntl_out1_cloexec ≠ 0 then fail E.EXIT_DISTCC_FAILED r
    else if env.fcntl_err1_cloexec ≠ 0 then fail E.EXIT_DISTCC_FAILED r
    else if env.socketpair < 0 then fail E.EXIT_DISTCC_FAILED r
    else if env.fork = -1 then
      some { outcome := Outcome.returned E.EXIT_OUT_OF_MEMORY, refs := r,
             trace := [Event.close Fd.sock_err0, Event.close Fd.sock_err1,
               Event.close Fd.main_sock0, Event.close Fd.main_sock1,
               Event.close Fd.sock_out0, Event.close Fd.sock_out1,
               Event.close Fd.sock_in0, Event.close Fd.sock_in1,
               Event.unlink env.tmp_output] }
    else if env.fork = 0 then
      let c := work_it_child env j list mem_limit
      some { outcome := c.2, refs := r, trace := c.1 }
    else
      work_it_parent E env r mem_limit

/-! ## Vocabulary of the statements -/

/-- The bytes a trace transfers to the child's input, in order. -/
def written : List Event → List ℕ
  | [] => []
  | Event.write Fd.sock_in1 bytes :: tr => bytes ++ written tr
  | _ :: tr => written tr

/-- The number of scripted writes that take bytes. -/
def progress : List WriteRes → ℕ
  | [] => 0
  | WriteRes.takes _ :: ws => progress ws + 1
  | WriteRes.fails _ :: ws => progress ws

/-- A scripted write that fails with EINTR or takes at least one byte. -/
def WriteRes.well_behaved : WriteRes → Bool
  | WriteRes.takes space => decide (1 ≤ space)
  | WriteRes.fails eintr => eintr

/-- What `get_msg` delivered is a protocol error: no message, or a message that is neither
a file chunk nor the end of the stream. -/
def protocol_error : Option Msg → Bool
  | none => true
  | some (Msg.other _) => true
  | some Msg.M_END => false
  | some (Msg.M_FILE_CHUNK _ _ _) => false

/-- A file-chunk message as `get_msg` delivers it. -/
def chunk_msg (c : List ℕ × ℕ × ℕ) : Option Msg := some (Msg.M_FILE_CHUNK c.1 c.2.1 c.2.2)

/-- Events of the launch confirmation and of the completion loop: the read of the control
channel, `select` and `wait4`. -/
def Event.is_completion : Event → Bool
  | Event.read Fd.main_sock0 => true
  | Event.select => true
  | Event.wait4 _ => true
  | _ => false

/-- An assignment of pairwise distinct non-zero exit codes, for closed examples. -/
def example_codes : ExitCodes :=
  { EXIT_DISTCC_FAILED := 100
    EXIT_COMPILER_CRASHED := 104
    EXIT_OUT_OF_MEMORY := 105
    EXIT_IO_ERROR := 107
    EXIT_COMPILER_MISSING := 110
    EXIT_CLIENT_KILLED := 112 }

/-- A job for closed examples: C source, no flags. -/
def example_job : CompileJob :=
  { language := Language.Lang_C, remoteFlags := [], restFlags := [] }

/-- Reference parameters at entry for closed examples: counters zero, texts empty. -/
def example_refs : Refs :=
  { in_compressed := 0, in_uncompressed := 0, str_out := "", str_err := "", status := 0,
    outfilename := "" }

/-- One iteration of the completion loop in which `select` times out and `wait4` reaps a
child with the given wait status and no page faults. -/
def reaped (status : ℤ) : SelectStep :=
  { ret := 0, eintr := false, isset_out := false, isset_err := false, isset_client := false,
    read_out := (0, ""), read_err := (0, ""), must_reap := true,
    wait4_ret := 4711, wait4_status := status, ru_minflt := 0, ru_majflt := 0 }

/-- A system for closed examples: every set-up call succeeds, the fork yields the parent
with child 4711, the client sends one chunk `[105, 110, 116]` and the end of the stream, the
socket takes what it is given, the compiler starts, and the child is reaped with exit
code 0 at the first time-out of `select`. -/
def example_env : Env :=
  { dcc_make_tmpnam := 0, tmp_output := "/tmp/icecc.o",
    pipe_sock_err := 0, pipe_sock_out := 0, pipe_main_sock := 0,
    fcntl_out0_nonblock := 0, fcntl_err0_nonblock := 0, fcntl_out0_cloexec := 0,
    fcntl_err0_cloexec := 0, fcntl_out1_cloexec := 0, fcntl_err1_cloexec := 0,
    socketpair := 0, fork := 4711, getuid := 1000, getgid := 1000, execv_fails := false,
    getpagesize := 4096,
    msgs := [some (Msg.M_FILE_CHUNK [105, 110, 116] 3 3), some Msg.M_END],
    writes := [WriteRes.takes 4096],
    main_reads := [{ n := 0, eintr := false, resultByte := 0 }],
    waitpids := [{ ret := 4711, eintr := false }],
    selects := [reaped 0] }

/-- A trace that has only writes to the child's input. -/
def only_writes (tr : List Event) : Prop := ∀ e ∈ tr, ∃ b, e = Event.write Fd.sock_in1 b

/-- The first `len` bytes of each chunk's buffer, in message order; a chunk is given as
`(buffer, len, compressed)`. -/
def payload : List (List ℕ × ℕ × ℕ) → List ℕ
  | [] => []
  | c :: cs => c.1.take c.2.1 ++ payload cs

/-- The sum of the chunks' `len` fields. -/
def sum_len : List (List ℕ × ℕ × ℕ) → ℕ
  | [] => 0
  | c :: cs => c.2.1 + sum_len cs

/-- The sum of the chunks' `compressed` fields. -/
def sum_compressed : List (List ℕ × ℕ × ℕ) → ℕ
  | [] => 0
  | c :: cs => c.2.2 + sum_compressed cs

/-- An event of the input streaming: a `get_msg` or a write to the child's input. -/
def Event.is_input : Event → Bool
  | Event.get_msg _ => true
  | Event.write Fd.sock_in1 _ => true
  | _ => false

/-- An event that is a call of `get_msg`. -/
def Event.is_get_msg : Event → Bool
  | Event.get_msg _ => true
  | _ => false

/-- Whether the run has removed the file `path`. -/
def Result.unlinked (res : Result) (path : String) : Bool :=
  decide (Event.unlink path ∈ res.trace)

/-- An iteration of the completion loop in which `select` fails with an error other than
EINTR. -/
def select_fails : SelectStep :=
  { ret := -1, eintr := false, isset_out := false, isset_err := false, isset_client := false,
    read_out := (0, ""), read_err := (0, ""), must_reap := false,
    wait4_ret := 0, wait4_status := 0, ru_minflt := 0, ru_majflt := 0 }

/-- An iteration of the completion loop in which the child's standard error delivers
`text`. -/
def stderr_ready (text : String) : SelectStep :=
  { ret := 1, eintr := false, isset_out := false, isset_err := true, isset_client := false,
    read_out := (0, ""), read_err := ((text.length : ℤ), text), must_reap := false,
    wait4_ret := 0, wait4_status := 0, ru_minflt := 0, ru_majflt := 0 }

/-- An iteration of the completion loop in which the client's descriptor is ready. -/
def client_ready : SelectStep :=
  { ret := 1, eintr := false, isset_out := false, isset_err := false, isset_client := true,
    read_out := (0, ""), read_err := (0, ""), must_reap := false,
    wait4_ret := 0, wait4_status := 0, ru_minflt := 0, ru_majflt := 0 }

/-- The scripts of `env`, each followed by one answer that ends the loop reading it: a
`get_msg` time-out, a failing write, end of file on the control channel, a successful
`waitpid`, a failing `select`. -/
def Env.closed (env : Env) : Env :=
  { env with
    msgs := env.msgs ++ [none],
    writes := env.writes ++ [WriteRes.fails false],
    main_reads := env.main_reads ++ [{ n := 0, eintr := false, resultByte := 0 }],
    waitpids := env.waitpids ++ [{ ret := 1, eintr := false }],
    selects := env.selects ++ [select_fails] }

/-- The example system with a client that sends one chunk and then nothing within the
time-out, and a socket that takes the chunk in short writes, one of them interrupted. -/
def timeout_env : Env :=
  { example_env with
    msgs := [some (Msg.M_FILE_CHUNK [105, 110, 116] 3 3), none],
    writes := [WriteRes.takes 1, WriteRes.fails true, WriteRes.takes 1, WriteRes.takes 4096] }

/-- Every set-up call of lines 115-147 succeeds and the fork yields the parent process. -/
def Env.reaches_parent (env : Env) : Bool :=
  decide (env.dcc_make_tmpnam = 0 ∧ env.pipe_sock_err = 0 ∧ env.pipe_sock_out = 0 ∧
    env.pipe_main_sock = 0 ∧ env.fcntl_out0_nonblock = 0 ∧ env.fcntl_err0_nonblock = 0 ∧
    env.fcntl_out0_cloexec = 0 ∧ env.fcntl_err0_cloexec = 0 ∧ env.fcntl_out1_cloexec = 0 ∧
    env.fcntl_err1_cloexec = 0 ∧ 0 ≤ env.socketpair ∧ env.fork ≠ -1 ∧ env.fork ≠ 0)

/-- The example system with a client whose first message is of another type. -/
def wrong_kind_env : Env :=
  { example_env with msgs := [some (Msg.other 42), some Msg.M_END] }

/-! ## Theorems -/

theorem roundHalfEven_intCast (z : ℤ) : roundHalfEven (z : ℚ) = z := by
  simp [roundHalfEven]

/-- Dyadic rationals with a numerator below `2 ^ 53` are binary64 numbers. -/
theorem fl_dyadic (n k : ℕ) (hn : n < 2 ^ 53) (hk : k ≤ 1074) :
    fl ((n : ℚ) / 2 ^ k) = (n : ℚ) / 2 ^ k := by
  unfold fl
  by_cases h0 : (n : ℚ) / 2 ^ k = 0
  · simp [h0]
  · rw [if_neg h0]
    have hnpos : (0 : ℚ) < n := by
      rcases Nat.eq_zero_or_pos n with h | h
      · exfalso; apply h0; simp [h]
      · exact_mod_cast h
    have hqpos : (0 : ℚ) < (n : ℚ) / 2 ^ k := by positivity
    rw [abs_of_pos hqpos]
    set q : ℚ := (n : ℚ) / 2 ^ k with hq
    set L : ℤ := Int.log 2 q with hL
    have h1 : ((2 : ℕ) : ℚ) ^ L ≤ q := Int.zpow_log_le_self (by norm_num) hqpos
    have h2 : q < (2 : ℚ) ^ ((53 : ℤ) - k) := by
      rw [hq, div_lt_iff₀ (by positivity)]
      have : (2 : ℚ) ^ ((53 : ℤ) - k) * 2 ^ k = 2 ^ (53 : ℕ) := by
        rw [← zpow_natCast (2 : ℚ) k, ← zpow_add₀ (by norm_num)]
        norm_num
      rw [this]
      exact_mod_cast hn
    have h3 : L < 53 - (k : ℤ) := by
      have : ((2 : ℚ)) ^ L < (2 : ℚ) ^ ((53 : ℤ) - k) := lt_of_le_of_lt (by exact_mod_cast h1) h2
      exact (zpow_lt_zpow_iff_right₀ (by norm_num)).1 this
    set e : ℤ := max (L - 52) (-1074) with he
    have hek : e ≤ -(k : ℤ) := by
      rw [he]; apply max_le <;> omega
    obtain ⟨d, hd⟩ : ∃ d : ℕ, -(k : ℤ) - e = d := ⟨(-(k : ℤ) - e).toNat, by omega⟩
    have hqe : q / 2 ^ e = ((n * 2 ^ d : ℤ) : ℚ) := by
      have he' : e = -(k : ℤ) - d := by omega
      rw [hq, he', zpow_sub₀ (by norm_num), zpow_neg, zpow_natCast, zpow_natCast]
      push_cast
      field_simp
      ring
    show (roundHalfEven (q / 2 ^ e) : ℚ) * 2 ^ e = q
    rw [hqe, roundHalfEven_intCast, ← hqe]
    field_simp

/-- On a 32 bit budget no operation of the expansion heuristic rounds. -/
theorem ggc_min_expand_exact (m : ℕ) (hm : m < 2 ^ 32) :
    ggc_min_expand_heuristic m = ⌊(30 : ℚ) + min (70 * (m : ℚ) / 1024) 70⌋ := by
  have e1 : fl (m : ℚ) = m := by
    have := fl_dyadic m 0 (by omega) (by norm_num)
    simpa using this
  have e2 : fl ((m : ℚ) / 1024) = (m : ℚ) / 1024 := by
    have := fl_dyadic m 10 (by omega) (by norm_num)
    norm_num at this ⊢
    exact this
  have e3 : fl ((m : ℚ) / 1024 * 70) = 70 * (m : ℚ) / 1024 := by
    have := fl_dyadic (70 * m) 10 (by omega) (by norm_num)
    have h : ((70 * m : ℕ) : ℚ) / 2 ^ 10 = (m : ℚ) / 1024 * 70 := by push_cast; ring
    rw [h] at this
    rw [this]; ring
  have e4 : std_min_double (70 * (m : ℚ) / 1024) 70 = min (70 * (m : ℚ) / 1024) 70 := by
    unfold std_min_double
    split_ifs with h
    · exact (min_eq_right h.le).symm
    · exact (min_eq_left (not_lt.1 h)).symm
  have e5 : fl (min (70 * (m : ℚ) / 1024) 70 + 30) = min (70 * (m : ℚ) / 1024) 70 + 30 := by
    rcases le_total (70 * (m : ℚ) / 1024) 70 with h | h
    · rw [min_eq_left h]
      have := fl_dyadic (70 * m + 30720) 10 (by omega) (by norm_num)
      have h' : ((70 * m + 30720 : ℕ) : ℚ) / 2 ^ 10 = 70 * (m : ℚ) / 1024 + 30 := by
        push_cast; ring
      rw [h'] at this
      exact this
    · rw [min_eq_right h]
      have := fl_dyadic 100 0 (by norm_num) (by norm_num)
      norm_num at this ⊢
      exact this
  unfold ggc_min_expand_heuristic
  simp only [e1, e2, e3, e4, e5]
  unfold double_to_int
  rw [if_pos (by positivity), add_comm]

/-- The floor of the expansion heuristic in integer arithmetic. -/
theorem expand_floor (m : ℕ) :
    ⌊(30 : ℚ) + min (70 * (m : ℚ) / 1024) 70⌋ = 30 + min ((70 * (m : ℤ)) / 1024) 70 := by
  have h : (30 : ℚ) + min (70 * (m : ℚ) / 1024) 70 = ((30 : ℤ) : ℚ) + min (70 * (m : ℚ) / 1024) 70 := by
    norm_num
  rw [h, Int.floor_int_add]
  congr 1
  rcases le_total (70 * (m : ℚ) / 1024) 70 with h1 | h1
  · rw [min_eq_left h1]
    have hf : ⌊70 * (m : ℚ) / 1024⌋ = (70 * (m : ℤ)) / 1024 := by
      have : (70 * (m : ℚ) / 1024) = (((70 * (m : ℤ)) : ℤ) : ℚ) / ((1024 : ℕ) : ℚ) := by
        push_cast; ring
      rw [this, Rat.floor_intCast_div_natCast]
      norm_num
    rw [hf]
    have : (70 * (m : ℤ)) / 1024 ≤ 70 := by
      have h2 : (70 * (m : ℚ)) ≤ 70 * 1024 := by
        have := (div_le_iff₀ (by norm_num : (0 : ℚ) < 1024)).1 h1
        linarith
      have h3 : (70 * (m : ℤ)) ≤ 70 * 1024 := by exact_mod_cast h2
      omega
    exact (min_eq_left this).symm
  · rw [min_eq_right h1]
    have h2 : (70 : ℚ) * 1024 ≤ 70 * (m : ℚ) := by
      have := (le_div_iff₀ (by norm_num : (0 : ℚ) < 1024)).1 h1
      linarith
    have h3 : (70 : ℤ) * 1024 ≤ 70 * (m : ℤ) := by exact_mod_cast h2
    have : (70 : ℤ) ≤ (70 * (m : ℤ)) / 1024 := by omega
    rw [min_eq_right this]
    exact Int.floor_eq_iff.2 (by norm_num)

/-- C3: for every 32 bit budget `m` the expansion heuristic is
`clamp(30 + 70*m/1024, 30, 100)` computed exactly and truncated, that is the floor of
`30 + min(70*m/1024, 70)`; it is 30 at `m = 0`, 100 from `m = 1024` on, and always lies
between 30 and 100. -/
theorem ggc_min_expand_heuristic_spec (m : ℕ) (hm : m < 2 ^ 32) :
    ggc_min_expand_heuristic m = ⌊(30 : ℚ) + min (70 * (m : ℚ) / 1024) 70⌋ ∧
    ggc_min_expand_heuristic m = ⌊max (30 : ℚ) (min ((30 : ℚ) + 70 * (m : ℚ) / 1024) 100)⌋ ∧
    (m = 0 → ggc_min_expand_heuristic m = 30) ∧
    (1024 ≤ m → ggc_min_expand_heuristic m = 100) ∧
    30 ≤ ggc_min_expand_heuristic m ∧ ggc_min_expand_heuristic m ≤ 100 := by
  have h := ggc_min_expand_exact m hm
  have hf := expand_floor m
  have hclamp : max (30 : ℚ) (min ((30 : ℚ) + 70 * (m : ℚ) / 1024) 100) =
      (30 : ℚ) + min (70 * (m : ℚ) / 1024) 70 := by
    have hm0 : (0 : ℚ) ≤ 70 * (m : ℚ) / 1024 := by positivity
    rw [show (100 : ℚ) = 30 + 70 by norm_num, min_add_add_left]
    apply max_eq_right
    have : (0 : ℚ) ≤ min (70 * (m : ℚ) / 1024) 70 := le_min hm0 (by norm_num)
    linarith
  refine ⟨h, ?_, ?_, ?_, ?_, ?_⟩
  · rw [hclamp]; exact h
  · intro h0; rw [h, hf, h0]; norm_num
  · intro h1; rw [h, hf]
    have : (70 : ℤ) ≤ (70 * (m : ℤ)) / 1024 := by omega
    rw [min_eq_right this]; norm_num
  · rw [h, hf]
    have : (0 : ℤ) ≤ min ((70 * (m : ℤ)) / 1024) 70 := le_min (by omega) (by norm_num)
    omega
  · rw [h, hf]
    have : min ((70 * (m : ℤ)) / 1024) 70 ≤ 70 := min_le_right _ _
    omega

/-- Witness of C3: the budget 512 MB. -/
theorem ggc_min_expand_heuristic_spec_witness :
    (512 : ℕ) < 2 ^ 32 ∧ ggc_min_expand_heuristic 512 = 65 ∧
      30 ≤ ggc_min_expand_heuristic 512 ∧ ggc_min_expand_heuristic 512 ≤ 100 := by
  have h := ggc_min_expand_heuristic_spec 512 (by norm_num)
  refine ⟨by norm_num, ?_, h.2.2.2.2.1, h.2.2.2.2.2⟩
  rw [h.1, expand_floor]
  norm_num

/-- C4: for every budget `m` the heap-size heuristic is `clamp(m/8, 4, 128)` megabytes in
kilobytes, `1024 * min(max(m/8, 4), 128)`; it is 4096 at `m = 0`, 131072 from `m = 1024`
on, and the product taken in `unsigned int` does not overflow. -/
theorem ggc_min_heapsize_heuristic_spec (m : ℕ) :
    ggc_min_heapsize_heuristic m = 1024 * min (max (m / 8) 4) 128 ∧
    (m = 0 → ggc_min_heapsize_heuristic m = 4096) ∧
    (1024 ≤ m → ggc_min_heapsize_heuristic m = 131072) ∧
    std_min (std_max (m / 8) 4) 128 * 1024 < 2 ^ 32 := by
  have hmax : std_max (m / 8) 4 = max (m / 8) 4 := by
    unfold std_max; split_ifs <;> omega
  have hmin : std_min (max (m / 8) 4) 128 = min (max (m / 8) 4) 128 := by
    unfold std_min; split_ifs <;> omega
  have hle : min (max (m / 8) 4) 128 ≤ 128 := min_le_right _ _
  have h : ggc_min_heapsize_heuristic m = 1024 * min (max (m / 8) 4) 128 := by
    unfold ggc_min_heapsize_heuristic
    simp only [hmax, hmin]
    rw [Nat.mod_eq_of_lt (by omega)]; ring
  refine ⟨h, ?_, ?_, ?_⟩
  · intro h0; rw [h, h0]; norm_num
  · intro h1; rw [h]; omega
  · rw [hmax, hmin]; omega

theorem find_from_ne_none (needle : List Char) (s : List Char) (pos : ℕ) :
    find_from needle s pos ≠ none ↔ needle <:+: s := by
  induction s generalizing pos with
  | nil =>
    unfold find_from
    by_cases h : needle.isPrefixOf [] = true
    · simp only [h, if_true]
      have := List.isPrefixOf_iff_prefix.1 h
      simp [List.prefix_nil.1 this]
    · simp only [h]
      have h' : ¬ needle <+: [] := fun hp => h (List.isPrefixOf_iff_prefix.2 hp)
      constructor
      · intro hc; exact absurd rfl hc
      · intro hi
        have := List.infix_nil.1 hi
        exact absurd (this ▸ List.prefix_refl _) h'
  | cons c cs ih =>
    unfold find_from
    rw [List.infix_cons_iff]
    by_cases h : needle.isPrefixOf (c :: cs) = true
    · simp only [h, if_true]
      constructor
      · intro _; exact Or.inl (List.isPrefixOf_iff_prefix.1 h)
      · intro _; exact Option.some_ne_none _
    · rw [if_neg h, ih]
      constructor
      · intro hi; exact Or.inr hi
      · rintro (hp | hi)
        · exact absurd (List.isPrefixOf_iff_prefix.2 hp) h
        · exact hi

/-- The search `string_find` finds the needle exactly when it occurs as a substring. -/
theorem string_find_ne_none (s needle : String) :
    string_find s needle ≠ none ↔ needle.data <:+: s.data :=
  find_from_ne_none _ _ _

theorem to_long_natCast (x : ℕ) (h : x < 2 ^ 63) : to_long (x : ℤ) = x := by
  unfold to_long
  norm_num at h ⊢
  omega

theorem to_ulong_natCast (x : ℕ) (h : x < 2 ^ 64) : to_ulong (x : ℤ) = x := by
  unfold to_ulong
  norm_num at h ⊢
  omega

/-- Without overflow in `long`, `mem_used` is the page-fault product in kilobytes. -/
theorem mem_used_eq (minflt majflt p : ℕ) (h : (minflt + majflt) * p < 2 ^ 63) :
    mem_used (minflt : ℤ) (majflt : ℤ) (p : ℤ) = (minflt + majflt) * p / 1024 := by
  unfold mem_used
  rcases Nat.eq_zero_or_pos p with hp | hp
  · subst hp; simp [to_long, to_ulong]
  · have hs : minflt + majflt < 2 ^ 63 :=
      lt_of_le_of_lt (Nat.le_mul_of_pos_right _ hp) h
    rw [← Nat.cast_add, to_long_natCast _ hs, ← Nat.cast_mul, to_long_natCast _ h,
      Int.tdiv_eq_ediv (Int.natCast_nonneg _) (by norm_num)]
    have e : (((minflt + majflt) * p : ℕ) : ℤ) / 1024 = (((minflt + majflt) * p / 1024 : ℕ) : ℤ) := by
      norm_cast
    rw [e]
    apply to_ulong_natCast
    have : (minflt + majflt) * p / 1024 ≤ (minflt + majflt) * p := Nat.div_le_self _ _
    norm_num at h ⊢
    omega

/-- The value of `status` after lines 380-383. -/
theorem finalize_fst (E : ExitCodes) (status ru_minflt ru_majflt pagesize : ℤ) (mem_limit : ℕ)
    (str_err : String) :
    (finalize E status ru_minflt ru_majflt pagesize mem_limit str_err).1 =
      if WIFEXITED status then WEXITSTATUS status else 1 := by
  unfold finalize
  simp only
  split_ifs <;> rfl

/-- C1 as stated fails: a child that exits with code 1, with no page faults and an empty
standard error, makes the finalize step return 0, not 1. -/
theorem finalize_exit_code_counterexample :
    WIFEXITED 256 = true ∧ WEXITSTATUS 256 = 1 ∧
    ¬ ((mem_used 0 0 4096 * 100) % 2 ^ 64 > (85 * 100 * 1024) % 2 ^ 64) ∧
    string_find "" OOM_MARKER = none ∧
    (finalize example_codes 256 0 0 4096 100 "").2 = 0 ∧
    (finalize example_codes 256 0 0 4096 100 "").2 ≠ 1 := by
  decide

/-- C1 amended: when the reaped child exited normally with a non-zero code `c` and neither
out-of-memory condition holds, the finalize step stores `c` in `status` and `work_it`
returns 0. -/
theorem finalize_exit_code (E : ExitCodes) (status c ru_minflt ru_majflt pagesize : ℤ)
    (mem_limit : ℕ) (str_err : String)
    (hexited : WIFEXITED status = true) (hc : WEXITSTATUS status = c) (hc0 : c ≠ 0)
    (hmem : ¬ ((mem_used ru_minflt ru_majflt pagesize * 100) % 2 ^ 64 >
      (85 * mem_limit * 1024) % 2 ^ 64))
    (hmarker : ¬ OOM_MARKER.data <:+: str_err.data) :
    finalize E status ru_minflt ru_majflt pagesize mem_limit str_err = (c, 0) := by
  have hf : string_find str_err OOM_MARKER = none := by
    by_contra h
    exact hmarker ((string_find_ne_none _ _).1 h)
  unfold finalize
  simp only [hexited, hc, if_true]
  rw [if_pos hc0, if_neg]
  rintro (h | h)
  · exact hmem h
  · exact h hf

/-- Witness of C1 amended: exit code 1, no page faults, empty standard error. -/
theorem finalize_exit_code_witness :
    finalize example_codes 256 0 0 4096 100 "" = (1, 0) :=
  finalize_exit_code example_codes 256 1 0 0 4096 100 "" (by decide) (by decide) (by decide)
    (by decide) (by decide)

/-- C2: in the finalize step, for page-fault counts, page size and budget whose products
do not overflow (the page-fault product is taken in `long`, the comparison in
`unsigned long`), `work_it` returns EXIT_OUT_OF_MEMORY exactly when the translated exit
code is non-zero and either `floor((minflt + majflt) * p / 1024) * 100 > 85 * m * 1024`
or the captured standard error contains the marker. -/
theorem finalize_out_of_memory_iff (E : ExitCodes) (hE : E.EXIT_OUT_OF_MEMORY ≠ 0)
    (status : ℤ) (minflt majflt p m : ℕ) (str_err : String)
    (hfaults : (minflt + majflt) * p < 2 ^ 63) (hbudget : 85 * m * 1024 < 2 ^ 64) :
    (finalize E status (minflt : ℤ) (majflt : ℤ) (p : ℤ) m str_err).2 = E.EXIT_OUT_OF_MEMORY ↔
      ((if WIFEXITED status then WEXITSTATUS status else 1) ≠ 0 ∧
        ((minflt + majflt) * p / 1024 * 100 > 85 * m * 1024 ∨
          OOM_MARKER.data <:+: str_err.data)) := by
  have hmu := mem_used_eq minflt majflt p hfaults
  have h100 : (minflt + majflt) * p / 1024 * 100 < 2 ^ 64 := by
    have : (minflt + majflt) * p / 1024 * 1024 ≤ (minflt + majflt) * p := Nat.div_mul_le_self _ _
    norm_num at hfaults ⊢
    omega
  unfold finalize
  simp only [hmu, Nat.mod_eq_of_lt h100, Nat.mod_eq_of_lt hbudget, string_find_ne_none]
  by_cases hs : (if WIFEXITED status then WEXITSTATUS status else 1) ≠ 0
  · rw [if_pos hs]
    by_cases hc : (minflt + majflt) * p / 1024 * 100 > 85 * m * 1024 ∨
        OOM_MARKER.data <:+: str_err.data
    · rw [if_pos hc]; simp [hs, hc]
    · rw [if_neg hc]
      constructor
      · intro h; exact absurd h.symm hE
      · intro h; exact absurd h.2 hc
  · rw [if_neg hs]
    constructor
    · intro h; exact absurd h.symm hE
    · intro h; exact absurd h.1 hs

/-- Witness of C2: a child killed by a signal (wait status 9) after 30000 page faults of
4096 bytes under a budget of 100 MB. -/
theorem finalize_out_of_memory_iff_witness :
    (finalize example_codes 9 (30000 : ℕ) (0 : ℕ) (4096 : ℕ) 100 "").2 =
        example_codes.EXIT_OUT_OF_MEMORY ↔
      ((if WIFEXITED 9 then WEXITSTATUS 9 else 1) ≠ 0 ∧
        ((30000 + 0) * 4096 / 1024 * 100 > 85 * 100 * 1024 ∨
          OOM_MARKER.data <:+: "".data)) :=
  finalize_out_of_memory_iff example_codes (by decide) 9 30000 0 4096 100 "" (by norm_num)
    (by norm_num)

/-- C7 as stated fails: a child that exits with code 0 while the captured standard error
contains the marker makes the finalize step return 0, not EXIT_OUT_OF_MEMORY. -/
theorem finalize_marker_counterexample :
    OOM_MARKER.data <:+: "cc1: virtual memory exhausted: Cannot allocate memory\n".data ∧
    WIFEXITED 0 = true ∧ WEXITSTATUS 0 = 0 ∧
    (finalize example_codes 0 0 0 4096 100
      "cc1: virtual memory exhausted: Cannot allocate memory\n").2 = 0 ∧
    (finalize example_codes 0 0 0 4096 100
      "cc1: virtual memory exhausted: Cannot allocate memory\n").2 ≠
        example_codes.EXIT_OUT_OF_MEMORY := by
  decide

/-- C7 amended: in the finalize step, for every wait status whose translated exit code is
non-zero and every page-fault count, if the captured standard error contains the marker
then `work_it` returns EXIT_OUT_OF_MEMORY, whatever the computed memory usage. -/
theorem finalize_marker (E : ExitCodes) (status ru_minflt ru_majflt pagesize : ℤ)
    (mem_limit : ℕ) (str_err : String)
    (hstatus : (if WIFEXITED status then WEXITSTATUS status else 1) ≠ 0)
    (hmarker : OOM_MARKER.data <:+: str_err.data) :
    (finalize E status ru_minflt ru_majflt pagesize mem_limit str_err).2 =
      E.EXIT_OUT_OF_MEMORY := by
  unfold finalize
  simp only
  rw [if_pos hstatus, if_pos (Or.inr ((string_find_ne_none _ _).2 hmarker))]

/-- Witness of C7 amended: exit code 1, no page faults, the marker in standard error. -/
theorem finalize_marker_witness :
    (finalize example_codes 256 0 0 4096 100
      "cc1: virtual memory exhausted: Cannot allocate memory\n").2 =
        example_codes.EXIT_OUT_OF_MEMORY :=
  finalize_marker example_codes 256 0 0 4096 100 _ (by decide) (by decide)

theorem foldl_put (list : List String) (a : Argv) :
    list.foldl Argv.put a = { a with argv := a.argv ++ list, i := a.i + list.length } := by
  induction list generalizing a with
  | nil => simp
  | cons s l ih =>
    rw [List.foldl_cons, ih]
    simp [Argv.put, Nat.add_assoc, Nat.add_comm 1]

theorem heapsize_le (m : ℕ) : ggc_min_heapsize_heuristic m ≤ 131072 := by
  unfold ggc_min_heapsize_heuristic std_min std_max
  simp only
  split_ifs <;> omega

theorem to_int_heapsize (m : ℕ) :
    to_int (ggc_min_heapsize_heuristic m) = (ggc_min_heapsize_heuristic m : ℤ) := by
  have h := heapsize_le m
  unfold to_int
  have h1 : ggc_min_heapsize_heuristic m % 2 ^ 32 = ggc_min_heapsize_heuristic m :=
    Nat.mod_eq_of_lt (by omega)
  rw [h1, if_pos (by omega)]

/-- C9: the argument vector built in the child is the program name, the remote flags, the
rest flags, `-x`, the language, `-`, `-o`, the artifact path and the two `--param` pairs
carrying the decimals of the two heuristics; it has `|R| + |S| + 10` entries, which is the
computed `argc`, so the terminating null at index `i` lies inside the `argc + 1` slots and
the test `i > argc` is false. -/
theorem build_argv_spec (j : CompileJob) (tmp_output : String) (m : ℕ) :
    (build_argv j (appendList j.remoteFlags j.restFlags) tmp_output m).argv =
      ["usr/bin/gcc"] ++ j.remoteFlags ++ j.restFlags ++
        ["-x", (if j.language = Language.Lang_CXX then "c++" else "c"), "-", "-o", tmp_output,
         "--param", "ggc-min-expand=" ++ (ggc_min_expand_heuristic (m % 2 ^ 32)).repr,
         "--param", "ggc-min-heapsize=" ++ (ggc_min_heapsize_heuristic (m % 2 ^ 32)).repr] ∧
    (build_argv j (appendList j.remoteFlags j.restFlags) tmp_output m).argv.length =
      j.remoteFlags.length + j.restFlags.length + 10 ∧
    (build_argv j (appendList j.remoteFlags j.restFlags) tmp_output m).i =
      (build_argv j (appendList j.remoteFlags j.restFlags) tmp_output m).argv.length ∧
    ((build_argv j (appendList j.remoteFlags j.restFlags) tmp_output m).i : ℤ) =
      (build_argv j (appendList j.remoteFlags j.restFlags) tmp_output m).argc ∧
    cant_count (build_argv j (appendList j.remoteFlags j.restFlags) tmp_output m) = false := by
  have hrepr : fmt_d (to_int (ggc_min_heapsize_heuristic (m % 2 ^ 32))) =
      (ggc_min_heapsize_heuristic (m % 2 ^ 32)).repr := by
    rw [to_int_heapsize]; rfl
  unfold fmt_d at hrepr
  unfold cant_count build_argv appendList
  simp only [foldl_put, Argv.put, fmt_d, hrepr]
  refine ⟨?_, ?_, ?_, ?_, ?_⟩
  · simp
  · simp; omega
  · simp; omega
  · simp; omega
  · simp; omega

theorem written_append (a b : List Event) : written (a ++ b) = written a ++ written b := by
  induction a with
  | nil => rfl
  | cons e a ih =>
    cases e with
    | write fd bytes =>
      cases fd <;> simp [written, ih]
    | _ => simp [written, ih]

/-- The write loop on a well-behaved script: it runs out of script, having fewer taking
writes than bytes to send, or it sends exactly the `n` bytes at offset `o`. -/
theorem write_loop_spec (E : ExitCodes) (buffer : List ℕ) (ws : List WriteRes)
    (hv : ∀ w ∈ ws, w.well_behaved = true) (n o : ℕ) (hn : n < 2 ^ 63) :
    (write_loop E buffer (n : ℤ) (o : ℤ) ws = none ∧ progress ws < n) ∨
    (∃ tr ws2, write_loop E buffer (n : ℤ) (o : ℤ) ws = some (tr, Flow.next ws2) ∧
      written tr = (buffer.drop o).take n ∧ only_writes tr ∧
      (∀ w ∈ ws2, w.well_behaved = true) ∧ progress ws ≤ progress ws2 + n) := by
  induction ws generalizing n o with
  | nil =>
    unfold write_loop
    rcases Nat.eq_zero_or_pos n with h0 | h0
    · subst h0
      right
      exact ⟨[], [], by simp, by simp [written], by simp [only_writes], by simp, by simp⟩
    · left
      have : ¬ ((n : ℤ) = 0) := by omega
      simp [this, progress, h0]
  | cons w ws ih =>
    have hvw := hv w (List.mem_cons_self _ _)
    have hvs : ∀ w ∈ ws, w.well_behaved = true := fun x hx => hv x (List.mem_cons_of_mem _ hx)
    unfold write_loop
    rcases Nat.eq_zero_or_pos n with h0 | h0
    · subst h0
      right
      exact ⟨[], w :: ws, by simp, by simp [written], by simp [only_writes], hv, by simp⟩
    · have hne : ¬ ((n : ℤ) = 0) := by omega
      rw [if_neg hne]
      have hu : to_ulong (n : ℤ) = n := to_ulong_natCast n (by
        have : (2 : ℕ) ^ 63 < 2 ^ 64 := by norm_num
        omega)
      simp only [hu]
      cases w with
      | fails eintr =>
        have he : eintr = true := by simpa [WriteRes.well_behaved] using hvw
        subst he
        simp only [WriteRes.bytes, WriteRes.errno_EINTR]
        rw [if_pos (by constructor <;> simp)]
        rcases ih hvs n o hn with ⟨h1, h2⟩ | ⟨tr, ws2, h1, h2, h3, h4, h5⟩
        · left
          exact ⟨by rw [h1], by simpa [progress] using h2⟩
        · right
          refine ⟨_ :: tr, ws2, by rw [h1], ?_, ?_, h4, by simpa [progress] using h5⟩
          · simp [written, h2]
          · intro e he
            rcases List.mem_cons.1 he with rfl | he
            · exact ⟨_, rfl⟩
            · exact h3 e he
      | takes space =>
        have hs : 1 ≤ space := by simpa [WriteRes.well_behaved] using hvw
        simp only [WriteRes.bytes, WriteRes.errno_EINTR]
        set b : ℕ := min space n with hb
        have hb1 : 1 ≤ b := le_min hs h0
        have hbn : b ≤ n := min_le_right _ _
        rw [if_neg (by simp), if_neg (by omega)]
        have e1 : (n : ℤ) - (b : ℤ) = ((n - b : ℕ) : ℤ) := by omega
        have e2 : (o : ℤ) + (b : ℤ) = ((o + b : ℕ) : ℤ) := by omega
        rw [e1, e2]
        have hev : (if (0 : ℤ) < (b : ℤ) then List.take (b : ℤ).toNat (List.drop (o : ℤ).toNat buffer)
            else []) = List.take b (List.drop o buffer) := by
          rw [if_pos (by omega)]; simp
        rw [hev]
        rcases ih hvs (n - b) (o + b) (by omega) with ⟨h1, h2⟩ | ⟨tr, ws2, h1, h2, h3, h4, h5⟩
        · left
          refine ⟨by rw [h1], ?_⟩
          simp only [progress]; omega
        · right
          refine ⟨_ :: tr, ws2, by rw [h1], ?_, ?_, h4, ?_⟩
          · simp only [written, h2]
            have : n = b + (n - b) := by omega
            conv_rhs => rw [this, List.take_add]
            rw [List.drop_drop]
          · intro e he
            rcases List.mem_cons.1 he with rfl | he
            · exact ⟨_, rfl⟩
            · exact h3 e he
          · simp only [progress]; omega

/-- The input loop on chunk messages followed by the end of the stream, with a well-behaved
write script: it runs out of script, having fewer taking writes than bytes to send, or it
ends normally with the counters advanced by the sums and all payload written in order. -/
theorem input_loop_spec (E : ExitCodes) (chunks : List (List ℕ × ℕ × ℕ))
    (rest : List (Option Msg)) (ws : List WriteRes) (r : Refs)
    (hv : ∀ w ∈ ws, w.well_behaved = true) (hlen : sum_len chunks < 2 ^ 63)
    (hu : r.in_uncompressed < 2 ^ 32) (hc : r.in_compressed < 2 ^ 32) :
    (input_loop E (chunks.map chunk_msg ++ some Msg.M_END :: rest) ws r = none ∧
      progress ws < sum_len chunks) ∨
    (∃ tr, input_loop E (chunks.map chunk_msg ++ some Msg.M_END :: rest) ws r =
        some (tr, { r with
          in_uncompressed := (r.in_uncompressed + sum_len chunks) % 2 ^ 32
          in_compressed := (r.in_compressed + sum_compressed chunks) % 2 ^ 32 }, Flow.next ()) ∧
      written tr = payload chunks ∧ Event.close Fd.sock_in1 ∉ tr) := by
  induction chunks generalizing ws r with
  | nil =>
    right
    refine ⟨[Event.get_msg (some Msg.M_END)], ?_, by simp [written, payload], by simp⟩
    simp only [List.map_nil, List.nil_append, input_loop, sum_len, sum_compressed, Nat.add_zero,
      Nat.mod_eq_of_lt hu, Nat.mod_eq_of_lt hc]
  | cons c cs ih =>
    obtain ⟨buffer, len, compressed⟩ := c
    simp only [sum_len] at hlen
    simp only [List.map_cons, List.cons_append, chunk_msg, input_loop, sum_len, sum_compressed,
      payload]
    rw [to_long_natCast len (by omega)]
    have hw := write_loop_spec E buffer ws hv len 0 (by omega)
    simp only [Nat.cast_zero, List.drop_zero] at hw
    rcases hw with ⟨h1, h2⟩ | ⟨tr1, ws2, h1, h2, hw3, h4, h5⟩
    · left
      refine ⟨by simp only [h1], by omega⟩
    · simp only [h1]
      have hu2 : (r.in_uncompressed + len) % 2 ^ 32 < 2 ^ 32 := Nat.mod_lt _ (by norm_num)
      have hc2 : (r.in_compressed + compressed) % 2 ^ 32 < 2 ^ 32 := Nat.mod_lt _ (by norm_num)
      rcases ih ws2 { r with
          in_uncompressed := (r.in_uncompressed + len) % 2 ^ 32
          in_compressed := (r.in_compressed + compressed) % 2 ^ 32 } h4 (by omega) hu2 hc2
        with ⟨g1, g2⟩ | ⟨tr2, g1, g2, g3⟩
      · left
        refine ⟨by simp only [List.append_eq, g1], by omega⟩
      · right
        have ea : ((r.in_uncompressed + len) % 2 ^ 32 + sum_len cs) % 2 ^ 32 =
            (r.in_uncompressed + (len + sum_len cs)) % 2 ^ 32 := by omega
        have eb : ((r.in_compressed + compressed) % 2 ^ 32 + sum_compressed cs) % 2 ^ 32 =
            (r.in_compressed + (compressed + sum_compressed cs)) % 2 ^ 32 := by omega
        refine ⟨Event.get_msg (some (Msg.M_FILE_CHUNK buffer len compressed)) :: (tr1 ++ tr2),
          by simp only [List.append_eq, g1, ea, eb], ?_, ?_⟩
        · simp only [written, written_append, h2, g2]
        · intro hmem
          rcases List.mem_cons.1 hmem with h | h
          · exact Event.noConfusion h
          · rcases List.mem_append.1 h with h | h
            · obtain ⟨b, hb⟩ := hw3 _ h
              exact Event.noConfusion hb
            · exact g3 h

/-- C8: for chunk messages followed by the end of the stream, counters zero at entry, sums
below `2 ^ 32`, and writes that fail with EINTR or take between 1 and the requested number
of bytes: when lines 259-303 end, `in_uncompressed` is the sum of the `len` fields,
`in_compressed` the sum of the `compressed` fields, the bytes written to the child's input
are the first `len` bytes of each buffer in message order, and `close (sock_in[1])` is the
last event.  They do end when the script has as many taking writes as there are bytes. -/
theorem input_streamer_spec (E : ExitCodes) (chunks : List (List ℕ × ℕ × ℕ))
    (rest : List (Option Msg)) (ws : List WriteRes) (r : Refs)
    (hu : r.in_uncompressed = 0) (hc : r.in_compressed = 0)
    (hlen : sum_len chunks < 2 ^ 32) (hcomp : sum_compressed chunks < 2 ^ 32)
    (hv : ∀ w ∈ ws, w.well_behaved = true) :
    (∀ out, input_streamer E (chunks.map chunk_msg ++ some Msg.M_END :: rest) ws r = some out →
      ∃ tr, out = (tr ++ [Event.close Fd.sock_in1],
          { r with in_uncompressed := sum_len chunks, in_compressed := sum_compressed chunks },
          Flow.next ()) ∧
        written tr = payload chunks ∧ Event.close Fd.sock_in1 ∉ tr) ∧
    (sum_len chunks ≤ progress ws →
      ∃ out, input_streamer E (chunks.map chunk_msg ++ some Msg.M_END :: rest) ws r = some out) := by
  have h63 : sum_len chunks < 2 ^ 63 := lt_trans hlen (by norm_num)
  have key := input_loop_spec E chunks rest ws r hv h63 (by rw [hu]; norm_num)
    (by rw [hc]; norm_num)
  rw [hu, hc, Nat.zero_add, Nat.zero_add, Nat.mod_eq_of_lt hlen, Nat.mod_eq_of_lt hcomp] at key
  unfold input_streamer
  rcases key with ⟨k1, k2⟩ | ⟨tr, k1, k2, k3⟩
  · rw [k1]
    refine ⟨fun out h => absurd h (by simp), fun h => absurd h (by omega)⟩
  · rw [k1]
    refine ⟨?_, fun _ => ⟨_, rfl⟩⟩
    intro out h
    simp only [Option.some.injEq] at h
    exact ⟨tr, h.symm, k2, k3⟩

/-- Witness of C8: two chunks, the second with a buffer longer than `len`, sent through an
interrupted write and short writes. -/
theorem input_streamer_spec_witness :
    ∃ tr, input_streamer example_codes
        (List.map chunk_msg [([105, 110, 116], 3, 2), ([32, 109, 59, 0], 3, 1)] ++
          some Msg.M_END :: [])
        [WriteRes.fails true, WriteRes.takes 2, WriteRes.takes 5, WriteRes.fails true,
          WriteRes.takes 1, WriteRes.takes 7]
        example_refs =
      some (tr ++ [Event.close Fd.sock_in1],
        { example_refs with in_uncompressed := 6, in_compressed := 3 }, Flow.next ()) ∧
      written tr = [105, 110, 116, 32, 109, 59] := by
  have h := input_streamer_spec example_codes
    [([105, 110, 116], 3, 2), ([32, 109, 59, 0], 3, 1)] []
    [WriteRes.fails true, WriteRes.takes 2, WriteRes.takes 5, WriteRes.fails true,
      WriteRes.takes 1, WriteRes.takes 7]
    example_refs rfl rfl (by decide) (by decide) (by decide)
  obtain ⟨out, hout⟩ := Option.isSome_iff_exists.1 (show (input_streamer example_codes
    (List.map chunk_msg [([105, 110, 116], 3, 2), ([32, 109, 59, 0], 3, 1)] ++
      some Msg.M_END :: [])
    [WriteRes.fails true, WriteRes.takes 2, WriteRes.takes 5, WriteRes.fails true,
      WriteRes.takes 1, WriteRes.takes 7]
    example_refs).isSome = true by decide)
  obtain ⟨tr, h1, h2, _⟩ := h.1 out hout
  exact ⟨tr, by rw [hout, h1]; rfl, h2⟩

theorem write_loop_trace (E : ExitCodes) (buffer : List ℕ) (ws : List WriteRes) (len off : ℤ)
    (tr : List Event) (f : Flow (List WriteRes))
    (h : write_loop E buffer len off ws = some (tr, f)) :
    (∀ e ∈ tr, ∃ b, e = Event.write Fd.sock_in1 b) ∧
    (∀ o, f = Flow.stop o → o = Outcome.thrown E.EXIT_COMPILER_CRASHED ∧
      WriteRes.fails false ∈ ws) ∧
    (∀ ws2, f = Flow.next ws2 → ∀ w ∈ ws2, w ∈ ws) := by
  induction ws generalizing len off tr f with
  | nil =>
    unfold write_loop at h
    split_ifs at h
    simp only [Option.some.injEq, Prod.mk.injEq] at h
    obtain ⟨rfl, rfl⟩ := h
    simp
  | cons w ws ih =>
    unfold write_loop at h
    by_cases h0 : len = 0
    · rw [if_pos h0] at h
      simp only [Option.some.injEq, Prod.mk.injEq] at h
      obtain ⟨rfl, rfl⟩ := h
      simp
    · rw [if_neg h0] at h
      simp only at h
      by_cases h1 : w.bytes (to_ulong len) < 0 ∧ w.errno_EINTR = true
      · rw [if_pos h1] at h
        cases hr : write_loop E buffer len off ws with
        | none => simp [hr] at h
        | some p =>
          obtain ⟨tr2, f2⟩ := p
          simp only [hr, Option.some.injEq, Prod.mk.injEq] at h
          obtain ⟨rfl, rfl⟩ := h
          obtain ⟨i1, i2, i3⟩ := ih _ _ _ _ hr
          refine ⟨?_, fun o ho => ⟨(i2 o ho).1, List.mem_cons_of_mem _ (i2 o ho).2⟩,
            fun ws2 h2 x hx => List.mem_cons_of_mem _ (i3 ws2 h2 x hx)⟩
          intro e he
          rcases List.mem_cons.1 he with rfl | he
          · exact ⟨_, rfl⟩
          · exact i1 e he
      · rw [if_neg h1] at h
        by_cases h2 : w.bytes (to_ulong len) = -1
        · rw [if_pos h2] at h
          simp only [Option.some.injEq, Prod.mk.injEq] at h
          obtain ⟨rfl, rfl⟩ := h
          refine ⟨?_, ?_, fun ws2 h2 => Flow.noConfusion h2⟩
          · intro e he
            rcases List.mem_singleton.1 he with rfl
            exact ⟨_, rfl⟩
          · intro o ho
            cases ho
            refine ⟨rfl, ?_⟩
            cases w with
            | takes space => simp [WriteRes.bytes] at h2; omega
            | fails eintr =>
              cases eintr with
              | true => simp [WriteRes.bytes, WriteRes.errno_EINTR] at h1
              | false => exact List.mem_cons_self _ _
        · rw [if_neg h2] at h
          cases hr : write_loop E buffer (len - w.bytes (to_ulong len))
              (off + w.bytes (to_ulong len)) ws with
          | none => simp [hr] at h
          | some p =>
            obtain ⟨tr2, f2⟩ := p
            simp only [hr, Option.some.injEq, Prod.mk.injEq] at h
            obtain ⟨rfl, rfl⟩ := h
            obtain ⟨i1, i2, i3⟩ := ih _ _ _ _ hr
            refine ⟨?_, fun o ho => ⟨(i2 o ho).1, List.mem_cons_of_mem _ (i2 o ho).2⟩,
              fun ws2 h2 x hx => List.mem_cons_of_mem _ (i3 ws2 h2 x hx)⟩
            intro e he
            rcases List.mem_cons.1 he with rfl | he
            · exact ⟨_, rfl⟩
            · exact i1 e he

theorem is_input_of_write (e : Event) (h : ∃ b, e = Event.write Fd.sock_in1 b) :
    e.is_input = true ∧ e.is_get_msg = false := by
  obtain ⟨b, rfl⟩ := h
  exact ⟨rfl, rfl⟩

/-- The input loop: its trace has only `get_msg` and writes to the child's input; a
protocol error in the trace means the loop threw EXIT_IO_ERROR; and a loop that is left
by `throw` carries EXIT_IO_ERROR after a protocol error in the script or
EXIT_COMPILER_CRASHED after a failing write in the script. -/
theorem input_loop_trace (E : ExitCodes) (msgs : List (Option Msg)) (ws : List WriteRes)
    (r : Refs) (tr : List Event) (r2 : Refs) (f : Flow Unit)
    (h : input_loop E msgs ws r = some (tr, r2, f)) :
    (∀ e ∈ tr, e.is_input = true) ∧
    ((∃ msg, protocol_error msg = true ∧ Event.get_msg msg ∈ tr) →
      f = Flow.stop (Outcome.thrown E.EXIT_IO_ERROR)) ∧
    (∀ o, f = Flow.stop o →
      (o = Outcome.thrown E.EXIT_IO_ERROR ∧ ∃ msg ∈ msgs, protocol_error msg = true) ∨
      (o = Outcome.thrown E.EXIT_COMPILER_CRASHED ∧ WriteRes.fails false ∈ ws)) := by
  induction msgs generalizing ws r tr r2 f with
  | nil => simp [input_loop] at h
  | cons m ms ih =>
    match m with
    | none =>
      simp only [input_loop, Option.some.injEq, Prod.mk.injEq] at h
      obtain ⟨rfl, rfl, rfl⟩ := h
      refine ⟨by simp [Event.is_input], fun _ => rfl, ?_⟩
      intro o ho
      cases ho
      exact Or.inl ⟨rfl, none, List.mem_cons_self _ _, rfl⟩
    | some (Msg.other t) =>
      simp only [input_loop, Option.some.injEq, Prod.mk.injEq] at h
      obtain ⟨rfl, rfl, rfl⟩ := h
      refine ⟨by simp [Event.is_input], fun _ => rfl, ?_⟩
      intro o ho
      cases ho
      exact Or.inl ⟨rfl, some (Msg.other t), List.mem_cons_self _ _, rfl⟩
    | some Msg.M_END =>
      simp only [input_loop, Option.some.injEq, Prod.mk.injEq] at h
      obtain ⟨rfl, rfl, rfl⟩ := h
      refine ⟨by simp [Event.is_input], ?_, fun o ho => Flow.noConfusion ho⟩
      rintro ⟨msg, hbad, hmem⟩
      simp only [List.mem_singleton, Event.get_msg.injEq] at hmem
      subst hmem
      simp [protocol_error] at hbad
    | some (Msg.M_FILE_CHUNK buffer len compressed) =>
      simp only [input_loop] at h
      cases hr : write_loop E buffer (to_long (len : ℤ)) 0 ws with
      | none => simp [hr] at h
      | some p =>
        obtain ⟨tr1, f1⟩ := p
        obtain ⟨w1, w2, w3⟩ := write_loop_trace E buffer ws _ _ tr1 f1 hr
        cases f1 with
        | stop o1 =>
          simp only [hr, Option.some.injEq, Prod.mk.injEq] at h
          obtain ⟨rfl, rfl, rfl⟩ := h
          refine ⟨?_, ?_, ?_⟩
          · intro e he
            rcases List.mem_cons.1 he with rfl | he
            · rfl
            · exact (is_input_of_write e (w1 e he)).1
          · rintro ⟨msg, hbad, hmem⟩
            rcases List.mem_cons.1 hmem with hm | hm
            · simp only [Event.get_msg.injEq] at hm
              subst hm
              simp [protocol_error] at hbad
            · have := (is_input_of_write _ (w1 _ hm)).2
              simp [Event.is_get_msg] at this
          · intro o ho
            cases ho
            exact Or.inr (w2 o1 rfl)
        | next ws2 =>
          simp only [hr] at h
          split at h
          · exact absurd h (by simp)
          next tr2 r3 f2 hr2 =>
            simp only [Option.some.injEq, Prod.mk.injEq] at h
            obtain ⟨rfl, rfl, rfl⟩ := h
            obtain ⟨i1, i2, i3⟩ := ih _ _ _ _ _ hr2
            refine ⟨?_, ?_, ?_⟩
            · intro e he
              rcases List.mem_cons.1 he with rfl | he
              · rfl
              · rcases List.mem_append.1 he with he | he
                · exact (is_input_of_write e (w1 e he)).1
                · exact i1 e he
            · rintro ⟨msg, hbad, hmem⟩
              rcases List.mem_cons.1 hmem with hm | hm
              · simp only [Event.get_msg.injEq] at hm
                subst hm
                simp [protocol_error] at hbad
              · rcases List.mem_append.1 hm with hm | hm
                · have := (is_input_of_write _ (w1 _ hm)).2
                  simp [Event.is_get_msg] at this
                · exact i2 ⟨msg, hbad, hm⟩
            · intro o ho
              rcases i3 o ho with ⟨h1, msg, hm, hb⟩ | ⟨h1, h2⟩
              · exact Or.inl ⟨h1, msg, List.mem_cons_of_mem _ hm, hb⟩
              · exact Or.inr ⟨h1, w3 ws2 rfl _ h2⟩

theorem waitpid_loop_trace (ws : List WaitpidRes) (tr : List Event)
    (h : waitpid_loop ws = some tr) : ∀ e ∈ tr, e = Event.waitpid := by
  induction ws generalizing tr with
  | nil => simp [waitpid_loop] at h
  | cons w ws ih =>
    unfold waitpid_loop at h
    by_cases h1 : w.ret < 0 ∧ w.eintr = true
    · rw [if_pos h1] at h
      split at h
      · exact absurd h (by simp)
      next tr2 hr =>
        simp only [Option.some.injEq] at h
        subst h
        intro e he
        rcases List.mem_cons.1 he with rfl | he
        · rfl
        · exact ih tr2 hr e he
    · rw [if_neg h1] at h
      simp only [Option.some.injEq] at h
      subst h
      simp

/-- The launch confirmation never calls `get_msg` and never throws. -/
theorem confirm_loop_trace (E : ExitCodes) (tmp : String) (wps : List WaitpidRes)
    (rds : List ReadRes) (r : Refs) (tr : List Event) (r2 : Refs) (f : Flow Unit)
    (h : confirm_loop E tmp wps rds r = some (tr, r2, f)) :
    (∀ e ∈ tr, e.is_get_msg = false) ∧ (∀ o, f = Flow.stop o → ∃ c, o = Outcome.returned c) := by
  induction rds generalizing r tr r2 f with
  | nil => simp [confirm_loop] at h
  | cons rd rds ih =>
    unfold confirm_loop at h
    by_cases h1 : rd.n = 1
    · rw [if_pos h1] at h
      simp only at h
      split at h
      · exact absurd h (by simp)
      next tr2 hr =>
        simp only [Option.some.injEq, Prod.mk.injEq] at h
        obtain ⟨rfl, rfl, rfl⟩ := h
        refine ⟨?_, fun o ho => ?_⟩
        · intro e he
          have hw := waitpid_loop_trace wps tr2 hr
          simp only [List.mem_append, List.mem_cons, List.mem_singleton, List.not_mem_nil,
            or_false] at he
          rcases he with (he | he) | he
          · rcases he with rfl | rfl | rfl | rfl | rfl | rfl | rfl | rfl | rfl | rfl <;> rfl
          · rw [hw e he]; rfl
          · rw [he]; rfl
        · cases ho
          exact ⟨_, rfl⟩
    · rw [if_neg h1] at h
      by_cases h2 : rd.n = -1 ∧ rd.eintr = true
      · rw [if_pos h2] at h
        split at h
        · exact absurd h (by simp)
        next tr2 r3 f2 hr =>
          simp only [Option.some.injEq, Prod.mk.injEq] at h
          obtain ⟨rfl, rfl, rfl⟩ := h
          obtain ⟨i1, i2⟩ := ih _ _ _ _ hr
          refine ⟨?_, i2⟩
          intro e he
          rcases List.mem_cons.1 he with rfl | he
          · rfl
          · exact i1 e he
      · rw [if_neg h2] at h
        simp only [Option.some.injEq, Prod.mk.injEq] at h
        obtain ⟨rfl, rfl, rfl⟩ := h
        refine ⟨?_, fun o ho => Flow.noConfusion ho⟩
        intro e he
        simp only [List.mem_cons, List.mem_singleton, List.not_mem_nil, or_false] at he
        rcases he with rfl | rfl <;> rfl

/-- The completion loop never calls `get_msg`. -/
theorem event_loop_trace (E : ExitCodes) (pagesize : ℤ) (mem_limit : ℕ)
    (ss : List SelectStep) (r : Refs) (tr : List Event) (r2 : Refs) (ret : ℤ)
    (h : event_loop E pagesize mem_limit ss r = some (tr, r2, ret)) :
    ∀ e ∈ tr, e.is_get_msg = false := by
  induction ss generalizing r tr r2 ret with
  | nil => simp [event_loop] at h
  | cons s ss ih =>
    unfold event_loop at h
    by_cases h1 : s.ret = -1 ∧ s.eintr = false
    · rw [if_pos h1] at h
      simp only [Option.some.injEq, Prod.mk.injEq] at h
      obtain ⟨rfl, rfl, rfl⟩ := h
      simp [Event.is_get_msg]
    · rw [if_neg h1] at h
      by_cases h2 : s.ret = -1 ∨ s.ret = 0
      · rw [if_pos h2] at h
        by_cases h3 : s.wait4_ret ≠ 0
        · rw [if_pos h3] at h
          simp only [Option.some.injEq, Prod.mk.injEq] at h
          obtain ⟨rfl, rfl, rfl⟩ := h
          simp [Event.is_get_msg]
        · rw [if_neg h3] at h
          split at h
          · exact absurd h (by simp)
          next tr2 r3 ret2 hr =>
            simp only [Option.some.injEq, Prod.mk.injEq] at h
            obtain ⟨rfl, rfl, rfl⟩ := h
            intro e he
            simp only [List.mem_cons] at he
            rcases he with rfl | rfl | he
            · rfl
            · rfl
            · exact ih _ _ _ _ hr e he
      · rw [if_neg h2] at h
        simp only at h
        have hout : ∀ e ∈ (if s.isset_out = true then [Event.read Fd.sock_out0] else []),
            e.is_get_msg = false := by
          intro e he
          split_ifs at he
          · rw [List.mem_singleton.1 he]; rfl
          · simp at he
        have herr : ∀ e ∈ (if s.isset_err = true then [Event.read Fd.sock_err0] else []),
            e.is_get_msg = false := by
          intro e he
          split_ifs at he
          · rw [List.mem_singleton.1 he]; rfl
          · simp at he
        by_cases h3 : s.isset_client = true
        · rw [if_pos h3] at h
          simp only [Option.some.injEq, Prod.mk.injEq] at h
          obtain ⟨rfl, rfl, rfl⟩ := h
          intro e he
          simp only [List.mem_cons, List.mem_append, List.mem_singleton, List.not_mem_nil,
            or_false] at he
          rcases he with rfl | (he | he) | rfl | rfl
          · rfl
          · exact hout e he
          · exact herr e he
          · rfl
          · rfl
        · rw [if_neg h3] at h
          split at h
          · exact absurd h (by simp)
          next tr2 r3 ret2 hr =>
            simp only [Option.some.injEq, Prod.mk.injEq] at h
            obtain ⟨rfl, rfl, rfl⟩ := h
            intro e he
            simp only [List.mem_cons, List.mem_append] at he
            rcases he with rfl | (he | he) | he
            · rfl
            · exact hout e he
            · exact herr e he
            · exact ih _ _ _ _ hr e he

theorem is_completion_of_is_input (e : Event) (h : e.is_input = true) :
    e.is_completion = false := by
  cases e with
  | write fd b => cases fd <;> simp_all [Event.is_input, Event.is_completion]
  | _ => simp_all [Event.is_input, Event.is_completion]

/-- The input streamer (loop and close): a protocol error in its trace means it threw
EXIT_IO_ERROR; when it is left by `throw`, its trace has only input events and the code is
EXIT_IO_ERROR after a protocol error or EXIT_COMPILER_CRASHED after a failing write. -/
theorem input_streamer_trace (E : ExitCodes) (msgs : List (Option Msg)) (ws : List WriteRes)
    (r : Refs) (tr : List Event) (r2 : Refs) (f : Flow Unit)
    (h : input_streamer E msgs ws r = some (tr, r2, f)) :
    ((∃ msg, protocol_error msg = true ∧ Event.get_msg msg ∈ tr) →
      f = Flow.stop (Outcome.thrown E.EXIT_IO_ERROR)) ∧
    (∀ o, f = Flow.stop o → (∀ e ∈ tr, e.is_input = true) ∧
      ((o = Outcome.thrown E.EXIT_IO_ERROR ∧ ∃ msg ∈ msgs, protocol_error msg = true) ∨
       (o = Outcome.thrown E.EXIT_COMPILER_CRASHED ∧ WriteRes.fails false ∈ ws))) := by
  unfold input_streamer at h
  split at h
  · exact absurd h (by simp)
  next tr1 r1 o1 hr =>
    simp only [Option.some.injEq, Prod.mk.injEq] at h
    obtain ⟨rfl, rfl, rfl⟩ := h
    obtain ⟨i1, i2, i3⟩ := input_loop_trace E msgs ws r _ _ _ hr
    refine ⟨i2, fun o ho => ⟨i1, i3 o ho⟩⟩
  next tr1 r1 hr =>
    simp only [Option.some.injEq, Prod.mk.injEq] at h
    obtain ⟨rfl, rfl, rfl⟩ := h
    obtain ⟨i1, i2, i3⟩ := input_loop_trace E msgs ws r _ _ _ hr
    refine ⟨?_, fun o ho => Flow.noConfusion ho⟩
    rintro ⟨msg, hbad, hmem⟩
    rcases List.mem_append.1 hmem with hm | hm
    · exact i2 ⟨msg, hbad, hm⟩
    · simp at hm

/-- The parent branch: a protocol error in the trace means the run threw EXIT_IO_ERROR
before any event of the launch confirmation or of the completion loop; and a run ends by
`return`, or by `throw` with EXIT_IO_ERROR after a protocol error or with
EXIT_COMPILER_CRASHED after a failing write. -/
theorem work_it_parent_trace (E : ExitCodes) (env : Env) (r : Refs) (m : ℕ) (res : Result)
    (h : work_it_parent E env r m = some res) :
    ((∃ msg, protocol_error msg = true ∧ Event.get_msg msg ∈ res.trace) →
      res.outcome = Outcome.thrown E.EXIT_IO_ERROR ∧
      ∀ e ∈ res.trace, e.is_completion = false) ∧
    ((∃ c, res.outcome = Outcome.returned c) ∨
     (res.outcome = Outcome.thrown E.EXIT_IO_ERROR ∧
        ∃ msg ∈ env.msgs, protocol_error msg = true) ∨
     (res.outcome = Outcome.thrown E.EXIT_COMPILER_CRASHED ∧
        WriteRes.fails false ∈ env.writes)) := by
  unfold work_it_parent at h
  simp only at h
  split at h
  · exact absurd h (by simp)
  next tr1 r1 o1 hr =>
    simp only [Option.some.injEq] at h
    subst h
    obtain ⟨i1, i2⟩ := input_streamer_trace E _ _ _ _ _ _ hr
    obtain ⟨j1, j2⟩ := i2 o1 rfl
    refine ⟨?_, ?_⟩
    · rintro ⟨msg, hbad, hmem⟩
      simp only [List.mem_append, List.mem_cons, List.mem_singleton, List.not_mem_nil,
        or_false, reduceCtorEq, false_or] at hmem
      have := i1 ⟨msg, hbad, hmem⟩
      simp only [Flow.stop.injEq] at this
      refine ⟨this, ?_⟩
      intro e he
      simp only [List.mem_append, List.mem_cons, List.mem_singleton, List.not_mem_nil,
        or_false] at he
      rcases he with (rfl | rfl) | he
      · rfl
      · rfl
      · exact is_completion_of_is_input e (j1 e he)
    · rcases j2 with h1 | h1
      · exact Or.inr (Or.inl h1)
      · exact Or.inr (Or.inr h1)
  next tr1 r1 hr =>
    obtain ⟨i1, _⟩ := input_streamer_trace E _ _ _ _ _ _ hr
    have nobad1 : ¬ ∃ msg, protocol_error msg = true ∧ Event.get_msg msg ∈ tr1 := by
      intro hb
      exact Flow.noConfusion (i1 hb)
    split at h
    · exact absurd h (by simp)
    next tr2 r2 o2 hr2 =>
      simp only [Option.some.injEq] at h
      subst h
      obtain ⟨c1, c2⟩ := confirm_loop_trace E _ _ _ _ _ _ _ hr2
      refine ⟨?_, Or.inl (c2 o2 rfl)⟩
      rintro ⟨msg, hbad, hmem⟩
      exfalso
      simp only [List.mem_append, List.mem_cons, List.mem_singleton, List.not_mem_nil,
        or_false, reduceCtorEq, false_or] at hmem
      rcases hmem with hm | hm
      · exact nobad1 ⟨msg, hbad, hm⟩
      · have := c1 _ hm
        simp [Event.is_get_msg] at this
    next tr2 r2 hr2 =>
      obtain ⟨c1, _⟩ := confirm_loop_trace E _ _ _ _ _ _ _ hr2
      split at h
      · exact absurd h (by simp)
      next tr3 r3 ret hr3 =>
        simp only [Option.some.injEq] at h
        subst h
        have e1 := event_loop_trace E _ _ _ _ _ _ _ hr3
        refine ⟨?_, Or.inl ⟨ret, rfl⟩⟩
        rintro ⟨msg, hbad, hmem⟩
        exfalso
        simp only [List.mem_append, List.mem_cons, List.mem_singleton, List.not_mem_nil,
          or_false, reduceCtorEq, false_or] at hmem
        rcases hmem with (hm | hm) | hm
        · exact nobad1 ⟨msg, hbad, hm⟩
        · have := c1 _ hm
          simp [Event.is_get_msg] at this
        · have := e1 _ hm
          simp [Event.is_get_msg] at this

theorem work_it_child_trace (env : Env) (j : CompileJob) (list : List String) (m : ℕ) :
    ∀ e ∈ (work_it_child env j list m).1, e.is_get_msg = false := by
  intro e he
  unfold work_it_child at he
  simp only at he
  split_ifs at he <;>
  simp only [List.mem_append, List.mem_cons, List.mem_singleton,
    List.not_mem_nil, or_false] at he
  · rcases he with rfl | rfl | rfl | rfl <;> rfl
  · rcases he with ((rfl | rfl | rfl | rfl) | (rfl | rfl | rfl | rfl | rfl | rfl | rfl | rfl)) | rfl <;> rfl
  · rcases he with ((rfl | rfl | rfl | rfl) | (rfl | rfl | rfl | rfl | rfl | rfl | rfl | rfl)) <;> rfl

/-- A run of `work_it` ends before the fork, in the failed fork or in the child, without
any `get_msg`, or it is a run of the parent branch. -/
theorem work_it_cases (E : ExitCodes) (env : Env) (j : CompileJob) (r : Refs) (m : ℕ)
    (res : Result) (h : work_it E env j r m = some res) :
    ((∀ e ∈ res.trace, e.is_get_msg = false) ∧
      ((∃ c, res.outcome = Outcome.returned c) ∨ env.fork = 0)) ∨
    (∃ r2, work_it_parent E env r2 m = some res) := by
  have early : ∀ (c : ℤ) (r2 : Refs),
      some ({ outcome := Outcome.returned c, refs := r2, trace := [] } : Result) = some res →
      ((∀ e ∈ res.trace, e.is_get_msg = false) ∧
        ((∃ c, res.outcome = Outcome.returned c) ∨ env.fork = 0)) := by
    intro c r2 h
    simp only [Option.some.injEq] at h
    subst h
    exact ⟨fun e he => absurd he (List.not_mem_nil _), Or.inl ⟨_, rfl⟩⟩
  unfold work_it at h
  dsimp only at h
  by_cases c1 : env.dcc_make_tmpnam ≠ 0
  · rw [if_pos c1] at h; exact Or.inl (early _ _ h)
  rw [if_neg c1] at h
  by_cases c2 : env.pipe_sock_err ≠ 0
  · rw [if_pos c2] at h; exact Or.inl (early _ _ h)
  rw [if_neg c2] at h
  by_cases c3 : env.pipe_sock_out ≠ 0
  · rw [if_pos c3] at h; exact Or.inl (early _ _ h)
  rw [if_neg c3] at h
  by_cases c4 : env.pipe_main_sock ≠ 0
  · rw [if_pos c4] at h; exact Or.inl (early _ _ h)
  rw [if_neg c4] at h
  by_cases c5 : env.fcntl_out0_nonblock ≠ 0
  · rw [if_pos c5] at h; exact Or.inl (early _ _ h)
  rw [if_neg c5] at h
  by_cases c6 : env.fcntl_err0_nonblock ≠ 0
  · rw [if_pos c6] at h; exact Or.inl (early _ _ h)
  rw [if_neg c6] at h
  by_cases c7 : env.fcntl_out0_cloexec ≠ 0
  · rw [if_pos c7] at h; exact Or.inl (early _ _ h)
  rw [if_neg c7] at h
  by_cases c8 : env.fcntl_err0_cloexec ≠ 0
  · rw [if_pos c8] at h; exact Or.inl (early _ _ h)
  rw [if_neg c8] at h
  by_cases c9 : env.fcntl_out1_cloexec ≠ 0
  · rw [if_pos c9] at h; exact Or.inl (early _ _ h)
  rw [if_neg c9] at h
  by_cases c10 : env.fcntl_err1_cloexec ≠ 0
  · rw [if_pos c10] at h; exact Or.inl (early _ _ h)
  rw [if_neg c10] at h
  by_cases c11 : env.socketpair < 0
  · rw [if_pos c11] at h; exact Or.inl (early _ _ h)
  rw [if_neg c11] at h
  by_cases c12 : env.fork = -1
  · rw [if_pos c12] at h
    simp only [Option.some.injEq] at h
    subst h
    left
    refine ⟨?_, Or.inl ⟨_, rfl⟩⟩
    intro e he
    simp only [List.mem_cons, List.mem_singleton, List.not_mem_nil, or_false] at he
    rcases he with rfl | rfl | rfl | rfl | rfl | rfl | rfl | rfl | rfl <;> rfl
  rw [if_neg c12] at h
  by_cases c13 : env.fork = 0
  · rw [if_pos c13] at h
    simp only [Option.some.injEq] at h
    subst h
    exact Or.inl ⟨work_it_child_trace _ _ _ _, Or.inr c13⟩
  rw [if_neg c13] at h
  exact Or.inr ⟨_, h⟩

theorem write_loop_closed (E : ExitCodes) (buffer : List ℕ) (ws : List WriteRes) (len off : ℤ) :
    ∃ tr f, write_loop E buffer len off (ws ++ [WriteRes.fails false]) = some (tr, f) ∧
      ((∃ o, f = Flow.stop o) ∨ ∃ ws2, f = Flow.next (ws2 ++ [WriteRes.fails false])) := by
  induction ws generalizing len off with
  | nil =>
    simp only [List.nil_append]
    unfold write_loop
    by_cases h0 : len = 0
    · rw [if_pos h0]
      exact ⟨_, _, rfl, Or.inr ⟨[], rfl⟩⟩
    · rw [if_neg h0]
      simp only [WriteRes.bytes, WriteRes.errno_EINTR]
      simp only [Bool.false_eq_true, and_false, if_false, if_true]
      exact ⟨_, _, rfl, Or.inl ⟨_, rfl⟩⟩
  | cons w ws ih =>
    simp only [List.cons_append]
    unfold write_loop
    by_cases h0 : len = 0
    · rw [if_pos h0]
      exact ⟨_, _, rfl, Or.inr ⟨w :: ws, rfl⟩⟩
    · rw [if_neg h0]
      simp only
      by_cases h1 : w.bytes (to_ulong len) < 0 ∧ w.errno_EINTR = true
      · rw [if_pos h1]
        obtain ⟨tr, f, e, hf⟩ := ih len off
        rw [e]
        exact ⟨_, _, rfl, hf⟩
      · rw [if_neg h1]
        by_cases h2 : w.bytes (to_ulong len) = -1
        · rw [if_pos h2]
          exact ⟨_, _, rfl, Or.inl ⟨_, rfl⟩⟩
        · rw [if_neg h2]
          obtain ⟨tr, f, e, hf⟩ := ih (len - w.bytes (to_ulong len)) (off + w.bytes (to_ulong len))
          rw [e]
          exact ⟨_, _, rfl, hf⟩

theorem input_loop_closed (E : ExitCodes) (msgs : List (Option Msg)) (ws : List WriteRes)
    (r : Refs) :
    ∃ out, input_loop E (msgs ++ [none]) (ws ++ [WriteRes.fails false]) r = some out := by
  induction msgs generalizing ws r with
  | nil => exact ⟨_, rfl⟩
  | cons m ms ih =>
    match m with
    | none => exact ⟨_, rfl⟩
    | some (Msg.other t) => exact ⟨_, rfl⟩
    | some Msg.M_END => exact ⟨_, rfl⟩
    | some (Msg.M_FILE_CHUNK buffer len compressed) =>
      simp only [List.cons_append, input_loop]
      obtain ⟨tr, f, e, hf⟩ := write_loop_closed E buffer ws (to_long (len : ℤ)) 0
      rw [e]
      rcases hf with ⟨o, rfl⟩ | ⟨ws2, rfl⟩
      · exact ⟨_, rfl⟩
      · simp only
        obtain ⟨out, e2⟩ := ih ws2 { r with
          in_uncompressed := (r.in_uncompressed + len) % 2 ^ 32
          in_compressed := (r.in_compressed + compressed) % 2 ^ 32 }
        simp only [List.append_eq] at e2 ⊢
        rw [e2]
        exact ⟨_, rfl⟩

theorem waitpid_loop_closed (wps : List WaitpidRes) :
    ∃ tr, waitpid_loop (wps ++ [{ ret := 1, eintr := false }]) = some tr := by
  induction wps with
  | nil => exact ⟨_, rfl⟩
  | cons w wps ih =>
    simp only [List.cons_append]
    unfold waitpid_loop
    obtain ⟨tr, e⟩ := ih
    by_cases h1 : w.ret < 0 ∧ w.eintr = true
    · rw [if_pos h1, e]; exact ⟨_, rfl⟩
    · rw [if_neg h1]; exact ⟨_, rfl⟩

theorem confirm_loop_closed (E : ExitCodes) (tmp : String) (wps : List WaitpidRes)
    (rds : List ReadRes) (r : Refs) :
    ∃ out, confirm_loop E tmp (wps ++ [{ ret := 1, eintr := false }])
      (rds ++ [{ n := 0, eintr := false, resultByte := 0 }]) r = some out := by
  induction rds generalizing r with
  | nil => exact ⟨_, rfl⟩
  | cons rd rds ih =>
    simp only [List.cons_append]
    unfold confirm_loop
    by_cases h1 : rd.n = 1
    · rw [if_pos h1]
      obtain ⟨tr, e⟩ := waitpid_loop_closed wps
      simp only [e]
      exact ⟨_, rfl⟩
    · rw [if_neg h1]
      by_cases h2 : rd.n = -1 ∧ rd.eintr = true
      · rw [if_pos h2]
        obtain ⟨out, e⟩ := ih r
        rw [e]
        exact ⟨_, rfl⟩
      · rw [if_neg h2]
        exact ⟨_, rfl⟩

theorem event_loop_closed (E : ExitCodes) (pagesize : ℤ) (m : ℕ) (ss : List SelectStep)
    (r : Refs) :
    ∃ out, event_loop E pagesize m (ss ++ [select_fails]) r = some out := by
  induction ss generalizing r with
  | nil => exact ⟨_, rfl⟩
  | cons s ss ih =>
    simp only [List.cons_append]
    unfold event_loop
    by_cases h1 : s.ret = -1 ∧ s.eintr = false
    · rw [if_pos h1]; exact ⟨_, rfl⟩
    · rw [if_neg h1]
      by_cases h2 : s.ret = -1 ∨ s.ret = 0
      · rw [if_pos h2]
        by_cases h3 : s.wait4_ret ≠ 0
        · rw [if_pos h3]; exact ⟨_, rfl⟩
        · rw [if_neg h3]
          obtain ⟨out, e⟩ := ih r
          rw [e]; exact ⟨_, rfl⟩
      · rw [if_neg h2]
        simp only
        by_cases h3 : s.isset_client = true
        · rw [if_pos h3]; exact ⟨_, rfl⟩
        · rw [if_neg h3]
          obtain ⟨out, e⟩ := ih _
          rw [e]; exact ⟨_, rfl⟩

theorem work_it_parent_closed (E : ExitCodes) (env : Env) (r : Refs) (m : ℕ) :
    ∃ res, work_it_parent E env.closed r m = some res := by
  unfold work_it_parent input_streamer
  simp only [Env.closed]
  obtain ⟨⟨tr1, r1, f1⟩, e1⟩ := input_loop_closed E env.msgs env.writes r
  rw [e1]
  cases f1 with
  | stop o => exact ⟨_, rfl⟩
  | next u =>
    simp only
    obtain ⟨⟨tr2, r2, f2⟩, e2⟩ := confirm_loop_closed E env.tmp_output env.waitpids
      env.main_reads r1
    rw [e2]
    cases f2 with
    | stop o => exact ⟨_, rfl⟩
    | next u2 =>
      simp only
      obtain ⟨⟨tr3, r3, ret⟩, e3⟩ := event_loop_closed E env.getpagesize m env.selects r2
      rw [e3]
      exact ⟨_, rfl⟩

/-- Every script can be completed so that `work_it` ends: the model returns a result
once each script ends with an answer that ends its loop. -/
theorem work_it_closed (E : ExitCodes) (env : Env) (j : CompileJob) (r : Refs) (m : ℕ) :
    ∃ res, work_it E env.closed j r m = some res := by
  unfold work_it
  dsimp only
  by_cases c1 : env.closed.dcc_make_tmpnam ≠ 0
  · rw [if_pos c1]; exact ⟨_, rfl⟩
  rw [if_neg c1]
  by_cases c2 : env.closed.pipe_sock_err ≠ 0
  · rw [if_pos c2]; exact ⟨_, rfl⟩
  rw [if_neg c2]
  by_cases c3 : env.closed.pipe_sock_out ≠ 0
  · rw [if_pos c3]; exact ⟨_, rfl⟩
  rw [if_neg c3]
  by_cases c4 : env.closed.pipe_main_sock ≠ 0
  · rw [if_pos c4]; exact ⟨_, rfl⟩
  rw [if_neg c4]
  by_cases c5 : env.closed.fcntl_out0_nonblock ≠ 0
  · rw [if_pos c5]; exact ⟨_, rfl⟩
  rw [if_neg c5]
  by_cases c6 : env.closed.fcntl_err0_nonblock ≠ 0
  · rw [if_pos c6]; exact ⟨_, rfl⟩
  rw [if_neg c6]
  by_cases c7 : env.closed.fcntl_out0_cloexec ≠ 0
  · rw [if_pos c7]; exact ⟨_, rfl⟩
  rw [if_neg c7]
  by_cases c8 : env.closed.fcntl_err0_cloexec ≠ 0
  · rw [if_pos c8]; exact ⟨_, rfl⟩
  rw [if_neg c8]
  by_cases c9 : env.closed.fcntl_out1_cloexec ≠ 0
  · rw [if_pos c9]; exact ⟨_, rfl⟩
  rw [if_neg c9]
  by_cases c10 : env.closed.fcntl_err1_cloexec ≠ 0
  · rw [if_pos c10]; exact ⟨_, rfl⟩
  rw [if_neg c10]
  by_cases c11 : env.closed.socketpair < 0
  · rw [if_pos c11]; exact ⟨_, rfl⟩
  rw [if_neg c11]
  by_cases c12 : env.closed.fork = -1
  · rw [if_pos c12]; exact ⟨_, rfl⟩
  rw [if_neg c12]
  by_cases c13 : env.closed.fork = 0
  · rw [if_pos c13]; exact ⟨_, rfl⟩
  rw [if_neg c13]
  exact work_it_parent_closed E env _ m

/-- The finalize step inside the completion loop: when `select` times out (or is
interrupted) and `wait4` reaps the child, `work_it` stores and returns what `finalize`
computes from the wait status, the page faults and the captured standard error. -/
theorem event_loop_reaps (E : ExitCodes) (pagesize : ℤ) (m : ℕ) (s : SelectStep)
    (ss : List SelectStep) (r : Refs)
    (hselect : s.ret = 0 ∨ (s.ret = -1 ∧ s.eintr = true)) (hwait : 0 < s.wait4_ret) :
    event_loop E pagesize m (s :: ss) r =
      some ([Event.select, Event.wait4 s.must_reap,
          Event.close Fd.sock_err0, Event.close Fd.sock_err1,
          Event.close Fd.sock_out0, Event.close Fd.sock_out1],
        { r with status :=
            (finalize E s.wait4_status s.ru_minflt s.ru_majflt pagesize m r.str_err).1 },
        (finalize E s.wait4_status s.ru_minflt s.ru_majflt pagesize m r.str_err).2) := by
  unfold event_loop
  have h1 : ¬ (s.ret = -1 ∧ s.eintr = false) := by
    rcases hselect with h | ⟨_, h⟩
    · intro hc; omega
    · intro hc; rw [h] at hc; exact Bool.noConfusion hc.2
  have h2 : s.ret = -1 ∨ s.ret = 0 := by
    rcases hselect with h | ⟨h, _⟩
    · exact Or.inr h
    · exact Or.inl h
  have h3 : s.wait4_ret ≠ 0 := by omega
  rw [if_neg h1, if_pos h2, if_pos h3, if_pos hwait]

/-- The child that is not privileged and whose `execv` succeeds runs the compiler with the
argument vector of `build_argv`. -/
theorem work_it_child_exec (env : Env) (j : CompileJob) (list : List String) (m : ℕ)
    (huid : env.getuid ≠ 0) (hgid : env.getgid ≠ 0) (hexec : env.execv_fails = false) :
    (work_it_child env j list m).2 = Outcome.exec (build_argv j list env.tmp_output m).argv := by
  unfold work_it_child
  simp only
  rw [if_neg (by rintro (h | h) <;> contradiction)]
  simp [hexec]

/-- A write loop that ends normally does the same when the script goes on. -/
theorem write_loop_append (E : ExitCodes) (buffer : List ℕ) (ws more : List WriteRes)
    (len off : ℤ) (tr : List Event) (ws2 : List WriteRes)
    (h : write_loop E buffer len off ws = some (tr, Flow.next ws2)) :
    write_loop E buffer len off (ws ++ more) = some (tr, Flow.next (ws2 ++ more)) := by
  induction ws generalizing len off tr ws2 with
  | nil =>
    unfold write_loop at h
    by_cases h0 : len = 0
    · rw [if_pos h0] at h
      simp only [Option.some.injEq, Prod.mk.injEq, Flow.next.injEq] at h
      obtain ⟨rfl, rfl⟩ := h
      cases more with
      | nil => simp [write_loop, h0]
      | cons w more => simp [write_loop, h0]
    · rw [if_neg h0] at h
      exact absurd h (by simp)
  | cons w ws ih =>
    simp only [List.cons_append]
    unfold write_loop at h ⊢
    by_cases h0 : len = 0
    · rw [if_pos h0] at h
      rw [if_pos h0]
      simp only [Option.some.injEq, Prod.mk.injEq, Flow.next.injEq] at h
      obtain ⟨rfl, rfl⟩ := h
      rfl
    · rw [if_neg h0] at h
      rw [if_neg h0]
      simp only at h ⊢
      by_cases h1 : w.bytes (to_ulong len) < 0 ∧ w.errno_EINTR = true
      · rw [if_pos h1] at h
        rw [if_pos h1]
        split at h
        · exact absurd h (by simp)
        next tr2 f2 hr =>
          simp only [Option.some.injEq, Prod.mk.injEq] at h
          obtain ⟨rfl, rfl⟩ := h
          rw [ih _ _ _ _ hr]
      · rw [if_neg h1] at h
        rw [if_neg h1]
        by_cases h2 : w.bytes (to_ulong len) = -1
        · rw [if_pos h2] at h
          simp only [Option.some.injEq, Prod.mk.injEq] at h
          exact absurd h.2 (by simp)
        · rw [if_neg h2] at h
          rw [if_neg h2]
          split at h
          · exact absurd h (by simp)
          next tr2 f2 hr =>
            simp only [Option.some.injEq, Prod.mk.injEq] at h
            obtain ⟨rfl, rfl⟩ := h
            rw [ih _ _ _ _ hr]

/-- The input loop on chunk messages followed by a protocol error: when the writes for
the chunks are well behaved and enough, the loop ends by throwing EXIT_IO_ERROR after the
`get_msg` that delivered the error. -/
theorem input_loop_protocol_error (E : ExitCodes) (chunks : List (List ℕ × ℕ × ℕ))
    (bad : Option Msg) (rest : List (Option Msg)) (ws more : List WriteRes) (r : Refs)
    (hbad : protocol_error bad = true)
    (hv : ∀ w ∈ ws, w.well_behaved = true) (hlen : ∀ c ∈ chunks, c.2.1 < 2 ^ 63)
    (hprog : sum_len chunks ≤ progress ws) :
    ∃ tr r2, input_loop E (chunks.map chunk_msg ++ bad :: rest) (ws ++ more) r =
        some (tr, r2, Flow.stop (Outcome.thrown E.EXIT_IO_ERROR)) ∧
      Event.get_msg bad ∈ tr := by
  induction chunks generalizing ws r with
  | nil =>
    simp only [List.map_nil, List.nil_append]
    match bad, hbad with
    | none, _ => exact ⟨_, _, rfl, List.mem_singleton.2 rfl⟩
    | some (Msg.other t), _ => exact ⟨_, _, rfl, List.mem_singleton.2 rfl⟩
  | cons c cs ih =>
    obtain ⟨buffer, len, compressed⟩ := c
    have hl : len < 2 ^ 63 := hlen (buffer, len, compressed) (List.mem_cons_self _ _)
    have hls : ∀ c ∈ cs, c.2.1 < 2 ^ 63 := fun c hc => hlen c (List.mem_cons_of_mem _ hc)
    simp only [sum_len] at hprog
    simp only [List.map_cons, List.cons_append, chunk_msg, input_loop]
    rw [to_long_natCast len hl]
    have hw := write_loop_spec E buffer ws hv len 0 hl
    simp only [Nat.cast_zero] at hw
    rcases hw with ⟨_, h2⟩ | ⟨tr1, ws2, h1, _, _, h4, h5⟩
    · omega
    · rw [write_loop_append E buffer ws more _ _ tr1 ws2 h1]
      simp only
      obtain ⟨tr2, r2, g1, g2⟩ := ih ws2 { r with
          in_uncompressed := (r.in_uncompressed + len) % 2 ^ 32
          in_compressed := (r.in_compressed + compressed) % 2 ^ 32 } h4 hls (by omega)
      simp only [List.append_eq] at g1 ⊢
      rw [g1]
      exact ⟨_, _, rfl, List.mem_cons_of_mem _ (List.mem_append_right _ g2)⟩

/-- After a successful set-up and fork, `work_it` is its parent branch. -/
theorem work_it_of_reaches_parent (E : ExitCodes) (env : Env) (j : CompileJob) (r : Refs)
    (m : ℕ) (h : env.reaches_parent = true) :
    work_it E env j r m =
      work_it_parent E env { r with str_out := "", outfilename := env.tmp_output } m := by
  simp only [Env.reaches_parent, decide_eq_true_eq] at h
  obtain ⟨c1, c2, c3, c4, c5, c6, c7, c8, c9, c10, c11, c12, c13⟩ := h
  unfold work_it
  dsimp only
  rw [if_neg (not_not.2 c1), if_neg (not_not.2 c2), if_neg (not_not.2 c3),
    if_neg (not_not.2 c4), if_neg (not_not.2 c5), if_neg (not_not.2 c6),
    if_neg (not_not.2 c7), if_neg (not_not.2 c8), if_neg (not_not.2 c9),
    if_neg (not_not.2 c10), if_neg (not_lt.2 c11), if_neg c12, if_neg c13]

/-- C5: in every run of `work_it` in which the set-up and the fork succeed and, before an
end-of-stream message, `get_msg` delivers no message or a message that is neither a file
chunk nor the end of the stream, the job ends with EXIT_IO_ERROR (carried by the
`myexception` thrown at line 267) and neither the launch-confirmation read nor `select`
nor `wait4` is executed.  First part: such a script, with well-behaved writes for the
chunks before the error, yields a finished run that reaches the failing `get_msg` and ends
so.  Second part: every finished run whose trace has a failing `get_msg` ends so. -/
theorem work_it_protocol_error (E : ExitCodes) (env : Env) (j : CompileJob) (r : Refs) (m : ℕ) :
    (∀ (chunks : List (List ℕ × ℕ × ℕ)) (bad : Option Msg) (rest : List (Option Msg))
        (ws more : List WriteRes),
      env.reaches_parent = true →
      env.msgs = chunks.map chunk_msg ++ bad :: rest → protocol_error bad = true →
      env.writes = ws ++ more → (∀ w ∈ ws, w.well_behaved = true) →
      (∀ c ∈ chunks, c.2.1 < 2 ^ 63) → sum_len chunks ≤ progress ws →
      ∃ res, work_it E env j r m = some res ∧ Event.get_msg bad ∈ res.trace ∧
        res.outcome = Outcome.thrown E.EXIT_IO_ERROR ∧
        ∀ e ∈ res.trace, e.is_completion = false) ∧
    (∀ res, work_it E env j r m = some res →
      (∃ msg, protocol_error msg = true ∧ Event.get_msg msg ∈ res.trace) →
      res.outcome = Outcome.thrown E.EXIT_IO_ERROR ∧
      ∀ e ∈ res.trace, e.is_completion = false) := by
  have partB : ∀ res, work_it E env j r m = some res →
      (∃ msg, protocol_error msg = true ∧ Event.get_msg msg ∈ res.trace) →
      res.outcome = Outcome.thrown E.EXIT_IO_ERROR ∧
      ∀ e ∈ res.trace, e.is_completion = false := by
    intro res hrun hbad
    rcases work_it_cases E env j r m res hrun with ⟨h1, _⟩ | ⟨r2, h2⟩
    · obtain ⟨msg, _, hmem⟩ := hbad
      have := h1 _ hmem
      simp [Event.is_get_msg] at this
    · exact (work_it_parent_trace E env r2 m res h2).1 hbad
  refine ⟨?_, partB⟩
  intro chunks bad rest ws more hsetup hmsgs hbad hwrites hv hlen hprog
  obtain ⟨tr, r2, hloop, hmem⟩ := input_loop_protocol_error E chunks bad rest ws more
    { r with str_out := "", outfilename := env.tmp_output } hbad hv hlen hprog
  have hrun : work_it E env j r m =
      some { outcome := Outcome.thrown E.EXIT_IO_ERROR, refs := r2,
             trace := [Event.close Fd.main_sock1, Event.close Fd.sock_in0] ++ tr } := by
    rw [work_it_of_reaches_parent E env j r m hsetup]
    unfold work_it_parent input_streamer
    simp only [hmsgs, hwrites, hloop]
  have hin : Event.get_msg bad ∈
      ([Event.close Fd.main_sock1, Event.close Fd.sock_in0] ++ tr) :=
    List.mem_append_right _ hmem
  exact ⟨_, hrun, hin, partB _ hrun ⟨bad, hbad, hin⟩⟩

/-- Witness of C5: a client that sends one chunk and then nothing within the time-out, and
a client whose first message is of another type. -/
theorem work_it_protocol_error_witness :
    (∃ res, work_it example_codes timeout_env example_job example_refs 100 = some res ∧
      Event.get_msg none ∈ res.trace ∧
      res.outcome = Outcome.thrown example_codes.EXIT_IO_ERROR ∧
      ∀ e ∈ res.trace, e.is_completion = false) ∧
    (∃ res, work_it example_codes wrong_kind_env example_job example_refs 100 = some res ∧
      Event.get_msg (some (Msg.other 42)) ∈ res.trace ∧
      res.outcome = Outcome.thrown example_codes.EXIT_IO_ERROR ∧
      ∀ e ∈ res.trace, e.is_completion = false) :=
  ⟨(work_it_protocol_error example_codes timeout_env example_job example_refs 100).1
      [([105, 110, 116], 3, 3)] none []
      [WriteRes.takes 1, WriteRes.fails true, WriteRes.takes 1, WriteRes.takes 4096] []
      (by decide) rfl rfl rfl (by decide) (by decide) (by decide),
   (work_it_protocol_error example_codes wrong_kind_env example_job example_refs 100).1
      [] (some (Msg.other 42)) [some Msg.M_END] [] [WriteRes.takes 4096]
      (by decide) rfl rfl rfl (by decide) (by decide) (by decide)⟩

/-- C6 as stated fails: when the first `get_msg` times out, `work_it` does not return; it
throws `myexception (EXIT_IO_ERROR)`, and it throws `myexception (EXIT_COMPILER_CRASHED)`
when a write to the child's input fails. -/
theorem work_it_throws_counterexample :
    (work_it example_codes { example_env with msgs := [none] }
        example_job example_refs 100).map Result.outcome =
      some (Outcome.thrown example_codes.EXIT_IO_ERROR) ∧
    (work_it example_codes { example_env with writes := [WriteRes.fails false] }
        example_job example_refs 100).map Result.outcome =
      some (Outcome.thrown example_codes.EXIT_COMPILER_CRASHED) := by
  decide

/-- C6 amended: every run of `work_it` in the parent process (failed fork included) ends
by returning an integer, or by throwing `myexception` with EXIT_IO_ERROR after a protocol
error of `get_msg`, or with EXIT_COMPILER_CRASHED after a failed write to the child's
input; and every script can be completed so that the run ends. -/
theorem work_it_returns_or_throws (E : ExitCodes) (env : Env) (j : CompileJob) (r : Refs)
    (m : ℕ) (hparent : env.fork ≠ 0) :
    (∃ res, work_it E env.closed j r m = some res) ∧
    ∀ res, work_it E env j r m = some res →
      ((∃ c, res.outcome = Outcome.returned c) ∨
       (res.outcome = Outcome.thrown E.EXIT_IO_ERROR ∧
          ∃ msg ∈ env.msgs, protocol_error msg = true) ∨
       (res.outcome = Outcome.thrown E.EXIT_COMPILER_CRASHED ∧
          WriteRes.fails false ∈ env.writes)) := by
  refine ⟨work_it_closed E env j r m, fun res hrun => ?_⟩
  rcases work_it_cases E env j r m res hrun with ⟨_, h1 | h1⟩ | ⟨r2, h2⟩
  · exact Or.inl h1
  · exact absurd h1 hparent
  · exact (work_it_parent_trace E env r2 m res h2).2

/-- Witness of C6 amended: the example system, in which the fork yields the parent. -/
theorem work_it_returns_or_throws_witness :
    example_env.fork ≠ 0 ∧
    (∃ res, work_it example_codes example_env.closed example_job example_refs 100 = some res) ∧
    ∀ res, work_it example_codes example_env example_job example_refs 100 = some res →
      ((∃ c, res.outcome = Outcome.returned c) ∨
       (res.outcome = Outcome.thrown example_codes.EXIT_IO_ERROR ∧
          ∃ msg ∈ example_env.msgs, protocol_error msg = true) ∨
       (res.outcome = Outcome.thrown example_codes.EXIT_COMPILER_CRASHED ∧
          WriteRes.fails false ∈ example_env.writes)) :=
  ⟨by decide,
   work_it_returns_or_throws example_codes example_env example_job example_refs 100
     (by decide)⟩

/-- C10, the code at failing inputs: after the artifact path is allocated, `work_it` ends
with a failure and has not unlinked the path when a pipe cannot be created, on a protocol
error, on a failed write, when `select` fails, on out-of-memory and when the client
cancels; it has unlinked the path when the fork fails and when the compiler is missing. -/
theorem work_it_failure_keeps_artifact :
    (work_it example_codes { example_env with pipe_sock_out := -1 } example_job example_refs
        100).map (fun res => (res.outcome, res.refs.outfilename, res.unlinked "/tmp/icecc.o")) =
      some (Outcome.returned example_codes.EXIT_DISTCC_FAILED, "/tmp/icecc.o", false) ∧
    (work_it example_codes { example_env with msgs := [none] } example_job example_refs
        100).map (fun res => (res.outcome, res.refs.outfilename, res.unlinked "/tmp/icecc.o")) =
      some (Outcome.thrown example_codes.EXIT_IO_ERROR, "/tmp/icecc.o", false) ∧
    (work_it example_codes { example_env with writes := [WriteRes.fails false] } example_job
        example_refs
        100).map (fun res => (res.outcome, res.refs.outfilename, res.unlinked "/tmp/icecc.o")) =
      some (Outcome.thrown example_codes.EXIT_COMPILER_CRASHED, "/tmp/icecc.o", false) ∧
    (work_it example_codes { example_env with selects := [select_fails] } example_job
        example_refs
        100).map (fun res => (res.outcome, res.refs.outfilename, res.unlinked "/tmp/icecc.o")) =
      some (Outcome.returned example_codes.EXIT_DISTCC_FAILED, "/tmp/icecc.o", false) ∧
    (work_it example_codes
        { example_env with selects :=
            [stderr_ready "cc1: virtual memory exhausted: Cannot allocate memory\n",
             reaped 256] }
        example_job example_refs
        100).map (fun res => (res.outcome, res.refs.outfilename, res.unlinked "/tmp/icecc.o")) =
      some (Outcome.returned example_codes.EXIT_OUT_OF_MEMORY, "/tmp/icecc.o", false) ∧
    (work_it example_codes { example_env with selects := [client_ready] } example_job
        example_refs
        100).map (fun res => (res.outcome, res.refs.outfilename, res.unlinked "/tmp/icecc.o")) =
      some (Outcome.returned example_codes.EXIT_CLIENT_KILLED, "/tmp/icecc.o", false) ∧
    (work_it example_codes { example_env with fork := -1 } example_job example_refs
        100).map (fun res => (res.outcome, res.refs.outfilename, res.unlinked "/tmp/icecc.o")) =
      some (Outcome.returned example_codes.EXIT_OUT_OF_MEMORY, "/tmp/icecc.o", true) ∧
    (work_it example_codes
        { example_env with main_reads := [{ n := 1, eintr := false, resultByte := 1 }] }
        example_job example_refs
        100).map (fun res => (res.outcome, res.refs.outfilename, res.unlinked "/tmp/icecc.o")) =
      some (Outcome.returned example_codes.EXIT_COMPILER_MISSING, "/tmp/icecc.o", true) := by
  decide

end Icecream
